import Mathlib

/-!
Verification development for the NYC ODCV prospector deployment coordinator
(deploy_manager.py) and the cache-busting rewriter (add_cache_busting.py).

The deployment manager is embedded as pure functions: the filesystem is a
map from path to optional content hash (mirroring _get_file_hash, which
returns None for an unreadable file), the persisted deployment state is a
record, and an invocation of should_deploy produces an ordered trace of
side-effect events (state saves and publish-action dispatches) together
with its boolean return value.
-/

/-- Association list modelling the Python dict state["last_file_hashes"].
Values are Option String because the source can store None as a value. -/
def HashDict : Type := List (String × Option String)

instance : DecidableEq HashDict := by
  unfold HashDict
  infer_instance

/-- Python dict .get with default None: the stored value when the key is
present, otherwise none. -/
def dictGet : HashDict → String → Option String
  | [], _ => none
  | p :: ps, k => if p.1 == k then p.2 else dictGet ps k

/-- Python dict assignment: overwrite the first matching key in place,
otherwise append the new entry at the end. -/
def dictSet : HashDict → String → Option String → HashDict
  | [], k, v => [(k, v)]
  | p :: ps, k, v => if p.1 == k then (k, v) :: ps else p :: dictSet ps k v

/-- Python dict key-membership test, distinguishing a key stored with a
null value from an absent key (dict.get cannot tell them apart). -/
def dictHasKey : HashDict → String → Bool
  | [], _ => false
  | p :: ps, k => p.1 == k || dictHasKey ps k

/-- Persisted deployment state (deployment_state.json), mirroring the
default record built by _load_state. -/
structure StateRec where
  changes_since_last_report_deploy : Nat
  last_homepage_deploy : Int
  last_report_deploy : Int
  last_file_hashes : HashDict
  deployment_history : List String
deriving DecidableEq

/-- The ChangeReport dict built by _detect_changes. -/
structure Changes where
  homepage_changed : Bool
  reports_changed : Bool
  code_changed : Bool
  total_changes : Nat
deriving DecidableEq

/-- The observable filesystem: hash models _get_file_hash (none when the
file cannot be read), reportDirExists models report_dir.exists(), and
reportFiles models list(report_dir.glob("*.html")). -/
structure FS where
  hash : String → Option String
  reportDirExists : Bool
  reportFiles : List String

/-- Path of the tracked code file. -/
def pyKey : String := "nyc_odcv_prospector.py"

/-- Path the homepage artifact is read from. -/
def indexSrc : String := "building_reports/index.html"

/-- Fingerprint-table key used for the homepage artifact. -/
def indexKey : String := "index.html"

/-- Python truthiness of an optional string: None and the empty string are
falsy, every other string is truthy. -/
def pyTruthy : Option String → Bool
  | none => false
  | some s => !(s == "")

/-- The sampling loop over the first 10 report files: each file whose hash
differs from the stored fingerprint bumps sample_changed and overwrites the
stored fingerprint. -/
def detectReports (fs : FS) : List String → Nat → HashDict → Nat × HashDict
  | [], n, d => (n, d)
  | f :: rest, n, d =>
    if fs.hash f != dictGet d f then
      detectReports fs rest (n + 1) (dictSet d f (fs.hash f))
    else
      detectReports fs rest n d

/-- Stage 1 of _detect_changes: compare-and-update for the tracked code
file. The comparison tolerates no prior entry only when the hash is also
absent, exactly as the source's py_hash != dict.get(...) does. -/
def codeStep (fs : FS) (d0 : HashDict) : Bool × HashDict :=
  if fs.hash pyKey != dictGet d0 pyKey then
    (true, dictSet d0 pyKey (fs.hash pyKey))
  else (false, d0)

/-- Stage 2 of _detect_changes: compare-and-update for the homepage
artifact, guarded by Python truthiness of the freshly computed hash. -/
def homeStep (fs : FS) (d1 : HashDict) : Bool × HashDict :=
  if pyTruthy (fs.hash indexSrc) && (fs.hash indexSrc != dictGet d1 indexKey) then
    (true, dictSet d1 indexKey (fs.hash indexSrc))
  else (false, d1)

/-- Stage 3 of _detect_changes: the sampling loop, run only when the
report directory exists. -/
def reportStep (fs : FS) (d2 : HashDict) : Nat × HashDict :=
  if fs.reportDirExists then detectReports fs (fs.reportFiles.take 10) 0 d2
  else (0, d2)

/-- Core of _detect_changes: from the filesystem and the current
fingerprint table, produce the ChangeReport and the updated table. -/
def detect_core (fs : FS) (d0 : HashDict) : Changes × HashDict :=
  let c := codeStep fs d0
  let h := homeStep fs c.2
  let r := reportStep fs h.2
  let t1 : Nat := if c.1 then 1 else 0
  let t2 : Nat := if h.1 then t1 + 1 else t1
  (⟨h.1, decide (0 < r.1), c.1, if 0 < r.1 then t2 + r.1 else t2⟩, r.2)

/-- The all-false, zero-total ChangeReport of a pass that detects
nothing. -/
def noChanges : Changes := ⟨false, false, false, 0⟩

/-- _detect_changes: mutates only the fingerprint table of the state. -/
def detect_changes (fs : FS) (st : StateRec) : Changes × StateRec :=
  let r := detect_core fs st.last_file_hashes
  (r.1, { st with last_file_hashes := r.2 })

/-- Number of accumulated changes required for an automatic full-report
deploy (self.changes_threshold). -/
def changes_threshold : Nat := 5

/-- Minimum seconds between homepage deploys (self.homepage_cooldown). -/
def homepage_cooldown : Int := 0

/-- Minimum seconds between full-report deploys (self.report_cooldown). -/
def report_cooldown : Int := 300

/-- Observable side effects of one should_deploy invocation, in order:
state-file writes (_save_state) and publish-action dispatches. -/
inductive Event where
  | save (s : StateRec)
  | deployHomepage
  | deployFullReports
deriving DecidableEq

/-- should_deploy: lockOk is the outcome of _acquire_lock; on failure the
function returns False with no side effects. Otherwise it loads the state,
runs the change detector, checks the cooldowns and dispatches according to
the requested deployment class, returning the event trace and the boolean
result. -/
def should_deploy (lockOk : Bool) (deploy_type : String) (fs : FS) (now : Int)
    (st0 : StateRec) : List Event × Bool :=
  if lockOk then
    let dc := detect_changes fs st0
    let changes := dc.1
    let st := dc.2
    let homepage_ready : Bool := decide (now - st.last_homepage_deploy > homepage_cooldown)
    let reports_ready : Bool := decide (now - st.last_report_deploy > report_cooldown)
    match deploy_type with
    | "homepage" =>
      if homepage_ready && changes.homepage_changed then
        let st1 := { st with last_homepage_deploy := now }
        ([Event.save st1, Event.deployHomepage], true)
      else ([], false)
    | "reports" =>
      if reports_ready then
        let st1 := { st with changes_since_last_report_deploy := 0, last_report_deploy := now }
        ([Event.save st1, Event.deployFullReports], true)
      else ([], false)
    | "auto" =>
      let stA := { st with changes_since_last_report_deploy :=
        st.changes_since_last_report_deploy + changes.total_changes }
      if changes.homepage_changed && homepage_ready then
        let st1 := { stA with last_homepage_deploy := now }
        ([Event.save st1, Event.deployHomepage], true)
      else if (decide (stA.changes_since_last_report_deploy ≥ changes_threshold)
          && reports_ready) || changes.code_changed then
        let st1 := { stA with changes_since_last_report_deploy := 0, last_report_deploy := now }
        ([Event.save st1, Event.deployFullReports], true)
      else
        ([Event.save stA], true)
    | _ => ([], false)
  else ([], false)

/-- Deployment class string for homepage-only evaluation. -/
def homepageKey : String := "homepage"

/-- Deployment class string for full-report evaluation. -/
def reportsKey : String := "reports"

/-- Deployment class string for automatic evaluation. -/
def autoKey : String := "auto"

/-- The state the next invocation will load: the last state written by
_save_state during the run, or the initial state when nothing was saved. -/
def persistedState (evs : List Event) (st0 : StateRec) : StateRec :=
  evs.foldl (fun acc e => match e with | Event.save s => s | _ => acc) st0

/-- Default-initialized state returned by _load_state on first run. -/
def defaultState : StateRec :=
  { changes_since_last_report_deploy := 0
    last_homepage_deploy := 0
    last_report_deploy := 0
    last_file_hashes := []
    deployment_history := [] }

/-- Definitional spelling of the homepage-class branch of should_deploy,
used as a rewriting target in proofs. -/
def homepageBody (fs : FS) (now : Int) (st0 : StateRec) : List Event × Bool :=
  if decide (now - (detect_changes fs st0).2.last_homepage_deploy > homepage_cooldown)
      && (detect_changes fs st0).1.homepage_changed then
    ([Event.save { (detect_changes fs st0).2 with last_homepage_deploy := now },
      Event.deployHomepage], true)
  else ([], false)

/-- Definitional spelling of the reports-class branch of should_deploy. -/
def reportsBody (fs : FS) (now : Int) (st0 : StateRec) : List Event × Bool :=
  if decide (now - (detect_changes fs st0).2.last_report_deploy > report_cooldown) then
    ([Event.save { (detect_changes fs st0).2 with
        changes_since_last_report_deploy := 0, last_report_deploy := now },
      Event.deployFullReports], true)
  else ([], false)

/-- The in-memory state of an auto-class run after the accumulator has been
bumped by the detected total_changes. -/
def autoStateA (fs : FS) (st0 : StateRec) : StateRec :=
  { (detect_changes fs st0).2 with changes_since_last_report_deploy :=
      (detect_changes fs st0).2.changes_since_last_report_deploy
        + (detect_changes fs st0).1.total_changes }

/-- Definitional spelling of the auto-class branch of should_deploy. -/
def autoBody (fs : FS) (now : Int) (st0 : StateRec) : List Event × Bool :=
  if (detect_changes fs st0).1.homepage_changed
      && decide (now - (detect_changes fs st0).2.last_homepage_deploy > homepage_cooldown) then
    ([Event.save { autoStateA fs st0 with last_homepage_deploy := now },
      Event.deployHomepage], true)
  else if (decide ((autoStateA fs st0).changes_since_last_report_deploy ≥ changes_threshold)
      && decide (now - (detect_changes fs st0).2.last_report_deploy > report_cooldown))
      || (detect_changes fs st0).1.code_changed then
    ([Event.save { autoStateA fs st0 with
        changes_since_last_report_deploy := 0, last_report_deploy := now },
      Event.deployFullReports], true)
  else ([Event.save (autoStateA fs st0)], true)

/-!
Embedding of add_cache_busting.py. The three re.sub patterns share one
shape: a literal opening (href=" or src="), a greedy run of non-quote
characters that must end in one of the listed dotted extensions with a
nonempty stem, and a closing quote; the replacement re-emits the matched
reference with ?v=<timestamp> inserted before the closing quote. The
rewriter scans left to right and resumes after each match, exactly like
re.sub.
-/

/-- Boolean literal-prefix test on character lists. -/
def startsWith : List Char → List Char → Bool
  | [], _ => true
  | _ :: _, [] => false
  | a :: as, b :: bs => a == b && startsWith as bs

/-- Boolean suffix test on character lists. -/
def endsWith (l suf : List Char) : Bool := startsWith suf.reverse l.reverse

/-- Split off the maximal quote-free run: the pair of the run and the
remainder (which is empty or begins with a double quote). -/
def splitQuote : List Char → List Char × List Char
  | [] => ([], [])
  | c :: cs =>
    if c == '"' then ([], c :: cs)
    else
      let r := splitQuote cs
      (c :: r.1, r.2)

/-- Attempt to match one asset-reference pattern at the head of s: the
literal lit, then a nonempty quote-free run ending in one of the dotted
extensions sufs, then a closing quote. Returns the run and the input
remaining after the closing quote. -/
def matchRef (lit : List Char) (sufs : List (List Char)) (s : List Char) :
    Option (List Char × List Char) :=
  if startsWith lit s then
    let t := s.drop lit.length
    let q := splitQuote t
    match q.2 with
    | _ :: rest =>
      if sufs.any (fun suf => endsWith q.1 suf && decide (suf.length < q.1.length)) then
        some (q.1, rest)
      else none
    | [] => none
  else none

/-- The replacement text inserted before the closing quote. -/
def tokenPart (ts : List Char) : List Char := '?' :: 'v' :: '=' :: ts

/-- Fuel-indexed left-to-right scan of re.sub: at each position, either
rewrite a match and resume after it, or advance one character. One unit of
fuel is spent per step, and every step consumes at least one input
character, so fuel equal to the input length always suffices. -/
def subRefFuel (lit : List Char) (sufs : List (List Char)) (ts : List Char) :
    Nat → List Char → List Char
  | 0, s => s
  | _ + 1, [] => []
  | n + 1, c :: cs =>
    match matchRef lit sufs (c :: cs) with
    | some (r, rest) =>
      lit ++ r ++ tokenPart ts ++ '"' :: subRefFuel lit sufs ts n rest
    | none => c :: subRefFuel lit sufs ts n cs

/-- One re.sub pass over the whole input. -/
def subRef (lit : List Char) (sufs : List (List Char)) (ts : List Char)
    (s : List Char) : List Char :=
  subRefFuel lit sufs ts s.length s

/-- Opening literal of the CSS pattern. -/
def litHref : List Char := ['h', 'r', 'e', 'f', '=', '"']

/-- Opening literal of the JS and image patterns. -/
def litSrc : List Char := ['s', 'r', 'c', '=', '"']

/-- Dotted extension of the CSS pattern. -/
def sufCss : List Char := ['.', 'c', 's', 's']

/-- Dotted extension of the JS pattern. -/
def sufJs : List Char := ['.', 'j', 's']

/-- Dotted extensions of the image pattern. -/
def sufsImg : List (List Char) :=
  [['.', 'j', 'p', 'g'], ['.', 'j', 'p', 'e', 'g'], ['.', 'p', 'n', 'g'],
   ['.', 'g', 'i', 'f'], ['.', 'w', 'e', 'b', 'p']]

/-- add_cache_busting_to_html: the three re.sub passes applied in source
order (CSS links, then JS links, then image links). -/
def add_cache_busting_to_html (html : List Char) (ts : List Char) : List Char :=
  let h1 := subRef litHref [sufCss] ts html
  let h2 := subRef litSrc [sufJs] ts h1
  subRef litSrc sufsImg ts h2

/-- Quote-free stem of the href=" literal (the literal minus its quote). -/
def stemHref : List Char := ['h', 'r', 'e', 'f', '=']

/-- Quote-free stem of the src=" literal (the literal minus its quote). -/
def stemSrc : List Char := ['s', 'r', 'c', '=']

/-- The extension test matchRef applies to the captured quote-free run. -/
def extOk (sufs : List (List Char)) (b : List Char) : Bool :=
  sufs.any fun suf => endsWith b suf && decide (suf.length < b.length)

/-- Rebuild a document from its quote-free segments, reinserting one
double quote between consecutive segments. -/
def joinSegs : List (List Char) → List Char
  | [] => []
  | [a] => a
  | a :: b :: rest => a ++ '"' :: joinSegs (b :: rest)

/-- Segment-level form of one re.sub pass: a pattern occurrence is a
segment ending in the stem whose successor segment passes the extension
test and is itself closed by a further quote; the rewrite appends
?v=<token> to the successor segment and the scan resumes after it. -/
def segMap (stem : List Char) (sufs : List (List Char)) (ts : List Char) :
    List (List Char) → List (List Char)
  | [] => []
  | [a] => [a]
  | a :: b :: rest =>
    if rest ≠ [] ∧ endsWith a stem = true ∧ extOk sufs b = true then
      a :: (b ++ tokenPart ts) :: segMap stem sufs ts rest
    else a :: segMap stem sufs ts (b :: rest)

/-- Segment-level cleanness for one pass: no interior pair of adjacent
segments forms a pattern occurrence (the final pair is exempt, since its
second segment is not followed by a closing quote). -/
def segClean (stem : List Char) (sufs : List (List Char)) : List (List Char) → Prop
  | [] => True
  | [_] => True
  | [_, _] => True
  | a :: b :: c :: rest =>
    ¬(endsWith a stem = true ∧ extOk sufs b = true) ∧ segClean stem sufs (b :: c :: rest)

/-- Concrete report path used by the accumulation scenario fixtures. -/
def rfW : String := "building_reports/r1.html"

/-- Scenario filesystem: the code file hashes to a constant, the single
report file hashes to the given value, nothing else is readable. -/
def fsW (h : String) : FS :=
  { hash := fun p => if p == pyKey then some "c" else (if p == rfW then some h else none),
    reportDirExists := true, reportFiles := [rfW] }

/-- Scenario states: the accumulator, last report deploy and the report
file's stored fingerprint vary; the code fingerprint is always current. -/
def stW (acc : Nat) (lrd : Int) (h : Option String) : StateRec :=
  { changes_since_last_report_deploy := acc
    last_homepage_deploy := 0
    last_report_deploy := lrd
    last_file_hashes :=
      match h with
      | none => [(pyKey, some "c")]
      | some hh => [(pyKey, some "c"), (rfW, some hh)]
    deployment_history := [] }

/-- Partial-unavailability fixture: one readable, changed report file
(gRepC6) next to one unreadable report file (fRepC6); the code file and
the homepage artifact are unreadable as well. -/
def gRepC6 : String := "building_reports/g.html"

/-- The unreadable report file of the partial-unavailability fixture. -/
def fRepC6 : String := "building_reports/f.html"

/-- Filesystem of the partial-unavailability fixture. -/
def fsC6 : FS :=
  { hash := fun p => if p == gRepC6 then some "r1" else none
    reportDirExists := true
    reportFiles := [gRepC6, fRepC6] }

/-!
Theorems. First the definitional case equations for should_deploy, then
general lemmas, then one theorem per claim.
-/

/-- Lock-acquisition failure short-circuits every deployment class. -/
theorem should_deploy_lock_fail (dt : String) (fs : FS) (now : Int) (st0 : StateRec) :
    should_deploy false dt fs now st0 = ([], false) := rfl

/-- Case equation: homepage-class invocation with the lock held. -/
theorem should_deploy_homepage_eq (fs : FS) (now : Int) (st0 : StateRec) :
    should_deploy true homepageKey fs now st0 = homepageBody fs now st0 := rfl

/-- Case equation: reports-class invocation with the lock held. -/
theorem should_deploy_reports_eq (fs : FS) (now : Int) (st0 : StateRec) :
    should_deploy true reportsKey fs now st0 = reportsBody fs now st0 := rfl

/-- Case equation: auto-class invocation with the lock held. -/
theorem should_deploy_auto_eq (fs : FS) (now : Int) (st0 : StateRec) :
    should_deploy true autoKey fs now st0 = autoBody fs now st0 := rfl

/-- Claim C3: on every path of should_deploy that dispatches a publish
action, the updated deploy timestamp (and, for full-report deploys, the
counter reset to 0) is saved to the state file strictly before the publish
action appears in the trace: every possible trace is either empty, a lone
save, or a save carrying the updated fields followed by the publish. -/
theorem C3_save_precedes_publish (lockOk : Bool) (dt : String) (fs : FS)
    (now : Int) (st0 : StateRec) :
    (should_deploy lockOk dt fs now st0).1 = [] ∨
    (∃ s, (should_deploy lockOk dt fs now st0).1 = [Event.save s]) ∨
    (∃ s, (should_deploy lockOk dt fs now st0).1
        = [Event.save s, Event.deployHomepage] ∧ s.last_homepage_deploy = now) ∨
    (∃ s, (should_deploy lockOk dt fs now st0).1
        = [Event.save s, Event.deployFullReports] ∧ s.last_report_deploy = now ∧
        s.changes_since_last_report_deploy = 0) := by
  unfold should_deploy
  split
  · split
    · dsimp only
      split
      · exact Or.inr (Or.inr (Or.inl ⟨_, rfl, rfl⟩))
      · exact Or.inl rfl
    · dsimp only
      split
      · exact Or.inr (Or.inr (Or.inr ⟨_, rfl, rfl, rfl⟩))
      · exact Or.inl rfl
    · dsimp only
      split
      · exact Or.inr (Or.inr (Or.inl ⟨_, rfl, rfl⟩))
      · split
        · exact Or.inr (Or.inr (Or.inr ⟨_, rfl, rfl, rfl⟩))
        · exact Or.inr (Or.inl ⟨_, rfl⟩)
    · exact Or.inl rfl
  · exact Or.inl rfl

/-- Claim C1: in auto mode, whenever the detector reports a homepage change
and the homepage cooldown is satisfied, the invocation dispatches the
homepage publish action and not the full-report publish action, regardless
of the accumulated-change threshold or the report cooldown. -/
theorem C1_auto_homepage_priority (fs : FS) (now : Int) (st0 : StateRec)
    (h1 : (detect_changes fs st0).1.homepage_changed = true)
    (h2 : now - st0.last_homepage_deploy > homepage_cooldown) :
    Event.deployHomepage ∈ (should_deploy true autoKey fs now st0).1 ∧
    Event.deployFullReports ∉ (should_deploy true autoKey fs now st0).1 := by
  rw [should_deploy_auto_eq]
  unfold autoBody
  have hready : decide (now - (detect_changes fs st0).2.last_homepage_deploy
      > homepage_cooldown) = true := decide_eq_true h2
  rw [h1, hready]
  simp

/-- Claim C1 witness: a concrete run in which the homepage changed, the
threshold is already exceeded and the report cooldown is satisfied, yet
only the homepage deploy is dispatched. -/
theorem C1_auto_homepage_priority_witness :
    Event.deployHomepage ∈ (should_deploy true autoKey
      { hash := fun p => if p == indexSrc then some "i1" else none,
        reportDirExists := false, reportFiles := [] }
      1000
      { changes_since_last_report_deploy := 9, last_homepage_deploy := 0,
        last_report_deploy := 0, last_file_hashes := [(pyKey, none)],
        deployment_history := [] }).1 ∧
    Event.deployFullReports ∉ (should_deploy true autoKey
      { hash := fun p => if p == indexSrc then some "i1" else none,
        reportDirExists := false, reportFiles := [] }
      1000
      { changes_since_last_report_deploy := 9, last_homepage_deploy := 0,
        last_report_deploy := 0, last_file_hashes := [(pyKey, none)],
        deployment_history := [] }).1 :=
  C1_auto_homepage_priority _ _ _ (by decide) (by decide)

/-- Claim C2 counterexample: an auto-class invocation whose decision is a
no-op (no changes, threshold not reached) still returns true, so the return
value is not equivalent to a deploy having been attempted. -/
theorem C2_counterexample :
    (should_deploy true autoKey
      { hash := fun _ => none, reportDirExists := false, reportFiles := [] }
      1000 defaultState).2 = true ∧
    Event.deployHomepage ∉ (should_deploy true autoKey
      { hash := fun _ => none, reportDirExists := false, reportFiles := [] }
      1000 defaultState).1 ∧
    Event.deployFullReports ∉ (should_deploy true autoKey
      { hash := fun _ => none, reportDirExists := false, reportFiles := [] }
      1000 defaultState).1 := by
  decide

/-- Claim C2 amended: for the homepage and reports classes the return value
is true exactly when the corresponding publish action was dispatched, but
an auto-class invocation returns true whenever the lock was acquired, even
when its decision is a no-op; false is returned on lock failure. -/
theorem C2_return_value_amended (lockOk : Bool) (fs : FS) (now : Int) (st0 : StateRec) :
    ((should_deploy lockOk homepageKey fs now st0).2 = true ↔
      Event.deployHomepage ∈ (should_deploy lockOk homepageKey fs now st0).1) ∧
    ((should_deploy lockOk reportsKey fs now st0).2 = true ↔
      Event.deployFullReports ∈ (should_deploy lockOk reportsKey fs now st0).1) ∧
    (should_deploy lockOk autoKey fs now st0).2 = lockOk := by
  cases lockOk
  · simp [should_deploy_lock_fail]
  · refine ⟨?_, ?_, ?_⟩
    · rw [should_deploy_homepage_eq]
      unfold homepageBody
      split <;> simp
    · rw [should_deploy_reports_eq]
      unfold reportsBody
      split <;> simp
    · rw [should_deploy_auto_eq]
      unfold autoBody
      split
      · rfl
      · split <;> rfl

/-- Claim C4 counterexample: a homepage-class invocation whose decision is
a no-op persists nothing at all, even though the change detector updated
the fingerprint table in memory (here a changed report file). -/
theorem C4_counterexample :
    should_deploy true homepageKey
      { hash := fun p => if p == "building_reports/r1.html" then some "r1" else none,
        reportDirExists := true, reportFiles := ["building_reports/r1.html"] }
      1000 defaultState = ([], false) ∧
    (detect_changes
      { hash := fun p => if p == "building_reports/r1.html" then some "r1" else none,
        reportDirExists := true, reportFiles := ["building_reports/r1.html"] }
      defaultState).2.last_file_hashes ≠ defaultState.last_file_hashes := by
  decide

/-- Claim C4 amended: only auto-class invocations persist on a no-op
decision: an auto run always writes a state carrying exactly the change
detector's fingerprint updates, whereas homepage-class and reports-class
runs write nothing unless they dispatch a deploy. -/
theorem C4_persistence_amended (fs : FS) (now : Int) (st0 : StateRec) :
    (∃ s, Event.save s ∈ (should_deploy true autoKey fs now st0).1 ∧
      s.last_file_hashes = (detect_changes fs st0).2.last_file_hashes) ∧
    ((should_deploy true homepageKey fs now st0).1 = [] ↔
      (should_deploy true homepageKey fs now st0).2 = false) ∧
    ((should_deploy true reportsKey fs now st0).1 = [] ↔
      (should_deploy true reportsKey fs now st0).2 = false) := by
  refine ⟨?_, ?_, ?_⟩
  · rw [should_deploy_auto_eq]
    unfold autoBody
    split
    · exact ⟨_, List.mem_cons_self _ _, rfl⟩
    · split
      · exact ⟨_, List.mem_cons_self _ _, rfl⟩
      · exact ⟨_, List.mem_cons_self _ _, rfl⟩
  · rw [should_deploy_homepage_eq]
    unfold homepageBody
    split <;> simp
  · rw [should_deploy_reports_eq]
    unfold reportsBody
    split <;> simp

/-- Claim C10: the accumulated-change counter is never incremented outside
auto mode: the state persisted by a homepage-class invocation carries the
counter unchanged, and the state persisted by a reports-class invocation
carries it either unchanged or reset to 0. -/
theorem C10_accumulator_frame (lockOk : Bool) (fs : FS) (now : Int) (st0 : StateRec) :
    (persistedState (should_deploy lockOk homepageKey fs now st0).1
        st0).changes_since_last_report_deploy
      = st0.changes_since_last_report_deploy ∧
    ((persistedState (should_deploy lockOk reportsKey fs now st0).1
          st0).changes_since_last_report_deploy
        = st0.changes_since_last_report_deploy ∨
      (persistedState (should_deploy lockOk reportsKey fs now st0).1
          st0).changes_since_last_report_deploy = 0) := by
  cases lockOk
  · simp [should_deploy_lock_fail, persistedState]
  · constructor
    · rw [should_deploy_homepage_eq]
      unfold homepageBody
      split
      · simp [persistedState, detect_changes]
      · simp [persistedState]
    · rw [should_deploy_reports_eq]
      unfold reportsBody
      split
      · right
        simp [persistedState]
      · left
        simp [persistedState]

example :
    should_deploy true autoKey
      { hash := fun _ => none, reportDirExists := false, reportFiles := [] }
      1000 defaultState = ([Event.save defaultState], true) := by
  decide

example :
    add_cache_busting_to_html ("x href=\"a.css\" y".toList) ("1".toList)
      = ("x href=\"a.css?v=1\" y".toList) := by
  decide

example :
    add_cache_busting_to_html
      (add_cache_busting_to_html ("x href=\"a.css\" y".toList) ("1".toList))
      ("2".toList)
      = ("x href=\"a.css?v=1\" y".toList) := by
  decide

example :
    add_cache_busting_to_html ("a src=\"b.png\" c src=\"d.js\"".toList) ("7".toList)
      = ("a src=\"b.png?v=7\" c src=\"d.js?v=7\"".toList) := by
  decide

/-- Reading back the key just written returns the written value. -/
theorem dictGet_dictSet_self (d : HashDict) (k : String) (v : Option String) :
    dictGet (dictSet d k v) k = v := by
  induction d with
  | nil => simp [dictGet, dictSet]
  | cons p ps ih =>
    by_cases h : p.1 = k
    · simp [dictGet, dictSet, h]
    · simp only [dictSet, dictGet, beq_iff_eq, if_neg h]
      exact ih

/-- Writing one key leaves every other key unchanged. -/
theorem dictGet_dictSet_ne (d : HashDict) (k k' : String) (v : Option String)
    (h : k ≠ k') : dictGet (dictSet d k v) k' = dictGet d k' := by
  induction d with
  | nil => simp [dictGet, dictSet, h]
  | cons p ps ih =>
    by_cases hp : p.1 = k
    · simp [dictGet, dictSet, hp, h]
    · by_cases hq : p.1 = k'
      · simp [dictGet, dictSet, hp, hq, Ne.symm h]
      · simp [dictGet, dictSet, hp, hq, ih]

/-- After the sampling loop, every sampled file's stored fingerprint equals
its current hash, and every other key is untouched. -/
theorem detectReports_get (fs : FS) (l : List String) (n : Nat) (d : HashDict) :
    (∀ f ∈ l, dictGet (detectReports fs l n d).2 f = fs.hash f) ∧
    (∀ k, k ∉ l → dictGet (detectReports fs l n d).2 k = dictGet d k) := by
  induction l generalizing n d with
  | nil => exact ⟨by simp, fun k _ => rfl⟩
  | cons f rest ih =>
    constructor
    · intro g hg
      rcases List.mem_cons.mp hg with hgf | hgrest
      · subst hgf
        unfold detectReports
        split
        · by_cases hmem : g ∈ rest
          · exact (ih _ _).1 g hmem
          · rw [(ih _ _).2 g hmem, dictGet_dictSet_self]
        · rename_i hne
          by_cases hmem : g ∈ rest
          · exact (ih _ _).1 g hmem
          · rw [(ih _ _).2 g hmem]
            have heq : fs.hash g = dictGet d g := by simpa using hne
            exact heq.symm
      · unfold detectReports
        split
        · exact (ih _ _).1 g hgrest
        · exact (ih _ _).1 g hgrest
    · intro k hk
      have hkf : k ≠ f := fun he => hk (he ▸ List.mem_cons_self f rest)
      have hkrest : k ∉ rest := fun hr => hk (List.mem_cons_of_mem f hr)
      unfold detectReports
      split
      · rw [(ih _ _).2 k hkrest, dictGet_dictSet_ne _ _ _ _ (Ne.symm hkf)]
      · exact (ih _ _).2 k hkrest

/-- When every sampled file's stored fingerprint already equals its current
hash, the sampling loop detects nothing and leaves the table unchanged. -/
theorem detectReports_stable (fs : FS) (l : List String) (n : Nat) (d : HashDict)
    (h : ∀ f ∈ l, dictGet d f = fs.hash f) :
    detectReports fs l n d = (n, d) := by
  induction l generalizing n with
  | nil => rfl
  | cons f rest ih =>
    unfold detectReports
    have hf : dictGet d f = fs.hash f := h f (List.mem_cons_self f rest)
    have : (fs.hash f != dictGet d f) = false := by
      rw [hf]
      simp
    rw [this]
    simp only [Bool.false_eq_true, if_false]
    exact ih _ fun g hg => h g (List.mem_cons_of_mem f hg)

/-- The code-file stage is a no-op when the stored fingerprint already
equals the current hash. -/
theorem codeStep_of_eq (fs : FS) (d : HashDict)
    (h : dictGet d pyKey = fs.hash pyKey) : codeStep fs d = (false, d) := by
  simp [codeStep, h]

/-- After the code-file stage the stored code fingerprint equals the
current hash. -/
theorem codeStep_get (fs : FS) (d : HashDict) :
    dictGet (codeStep fs d).2 pyKey = fs.hash pyKey := by
  unfold codeStep
  split
  · exact dictGet_dictSet_self _ _ _
  · rename_i hne
    have heq : fs.hash pyKey = dictGet d pyKey := by simpa using hne
    exact heq.symm

/-- The code-file stage touches no key other than the code file's. -/
theorem codeStep_get_ne (fs : FS) (d : HashDict) (k : String) (h : k ≠ pyKey) :
    dictGet (codeStep fs d).2 k = dictGet d k := by
  unfold codeStep
  split
  · exact dictGet_dictSet_ne _ _ _ _ (Ne.symm h)
  · rfl

/-- The homepage stage is a no-op when either the artifact hash is falsy or
the stored fingerprint already equals it. -/
theorem homeStep_of_eq (fs : FS) (d : HashDict)
    (h : pyTruthy (fs.hash indexSrc) = true → dictGet d indexKey = fs.hash indexSrc) :
    homeStep fs d = (false, d) := by
  unfold homeStep
  cases ht : pyTruthy (fs.hash indexSrc)
  · simp [ht]
  · simp [ht, h ht]

/-- After the homepage stage with a truthy artifact hash, the stored
homepage fingerprint equals the current hash. -/
theorem homeStep_get (fs : FS) (d : HashDict)
    (ht : pyTruthy (fs.hash indexSrc) = true) :
    dictGet (homeStep fs d).2 indexKey = fs.hash indexSrc := by
  unfold homeStep
  split
  · exact dictGet_dictSet_self _ _ _
  · rename_i hne
    have heq : fs.hash indexSrc = dictGet d indexKey := by
      by_contra hx
      exact hne (by simp [ht, bne_iff_ne, hx])
    exact heq.symm

/-- The homepage stage touches no key other than the homepage key. -/
theorem homeStep_get_ne (fs : FS) (d : HashDict) (k : String) (h : k ≠ indexKey) :
    dictGet (homeStep fs d).2 k = dictGet d k := by
  unfold homeStep
  split
  · exact dictGet_dictSet_ne _ _ _ _ (Ne.symm h)
  · rfl

/-- The sampling stage is a no-op when (if the directory exists) every
sampled fingerprint already equals the current hash. -/
theorem reportStep_stable (fs : FS) (d : HashDict)
    (h : fs.reportDirExists = true →
      ∀ f ∈ fs.reportFiles.take 10, dictGet d f = fs.hash f) :
    reportStep fs d = (0, d) := by
  unfold reportStep
  split
  · rename_i hd
    exact detectReports_stable fs _ 0 d (h hd)
  · rfl

/-- After the sampling stage (directory present), every sampled file's
stored fingerprint equals its current hash. -/
theorem reportStep_get (fs : FS) (d : HashDict) (hd : fs.reportDirExists = true) :
    ∀ f ∈ fs.reportFiles.take 10, dictGet (reportStep fs d).2 f = fs.hash f := by
  intro f hf
  unfold reportStep
  rw [if_pos hd]
  exact (detectReports_get fs _ 0 d).1 f hf

/-- The sampling stage touches no key outside the sampled files. -/
theorem reportStep_get_ne (fs : FS) (d : HashDict) (k : String)
    (h : k ∉ fs.reportFiles.take 10) :
    dictGet (reportStep fs d).2 k = dictGet d k := by
  unfold reportStep
  split
  · exact (detectReports_get fs _ 0 d).2 k h
  · rfl

/-- A full detection pass over a table that already agrees with the
filesystem detects nothing and leaves the table unchanged. -/
theorem detect_core_of_no_change (fs : FS) (d : HashDict)
    (h1 : dictGet d pyKey = fs.hash pyKey)
    (h2 : pyTruthy (fs.hash indexSrc) = true → dictGet d indexKey = fs.hash indexSrc)
    (h3 : fs.reportDirExists = true →
      ∀ f ∈ fs.reportFiles.take 10, dictGet d f = fs.hash f) :
    detect_core fs d = (noChanges, d) := by
  simp only [detect_core]
  rw [codeStep_of_eq fs d h1]
  dsimp only
  rw [homeStep_of_eq fs d h2]
  dsimp only
  rw [reportStep_stable fs d h3]
  rfl

/-- Running the detector a second time over the table it just produced
detects nothing, provided the homepage fingerprint key is not also among
the sampled report paths (in the source the sampled paths always carry the
directory prefix, so they never collide with the bare homepage key). -/
theorem detect_core_stable (fs : FS) (d0 : HashDict)
    (hidx : indexKey ∉ fs.reportFiles.take 10) :
    detect_core fs (detect_core fs d0).2 = (noChanges, (detect_core fs d0).2) := by
  have hd3 : (detect_core fs d0).2


      = (reportStep fs (homeStep fs (codeStep fs d0).2).2).2 := rfl
  rw [hd3]
  apply detect_core_of_no_change
  · cases hdir : fs.reportDirExists
    · have hrs : reportStep fs (homeStep fs (codeStep fs d0).2).2
          = (0, (homeStep fs (codeStep fs d0).2).2) := by
        simp [reportStep, hdir]
      rw [hrs]
      show dictGet (homeStep fs (codeStep fs d0).2).2 pyKey = fs.hash pyKey
      rw [homeStep_get_ne _ _ _ (by decide), codeStep_get]
    · by_cases hmem : pyKey ∈ fs.reportFiles.take 10
      · exact reportStep_get fs _ hdir pyKey hmem
      · rw [reportStep_get_ne _ _ _ hmem, homeStep_get_ne _ _ _ (by decide), codeStep_get]
  · intro ht
    rw [reportStep_get_ne _ _ _ hidx, homeStep_get _ _ ht]
  · intro hdir
    exact reportStep_get fs _ hdir

/-- Stability lifted to detect_changes: a state whose fingerprint table is
the output of a previous pass yields an all-false, zero-total report and is
returned unchanged. -/
theorem detect_changes_stable (fs : FS) (st1 : StateRec) (d0 : HashDict)
    (hidx : indexKey ∉ fs.reportFiles.take 10)
    (h : st1.last_file_hashes = (detect_core fs d0).2) :
    detect_changes fs st1 = (noChanges, st1) := by
  unfold detect_changes
  rw [h, detect_core_stable fs d0 hidx]
  dsimp only
  rw [← h]

/-- Every auto-class run persists a state whose fingerprint table is
exactly the detector's output. -/
theorem auto_persisted_dict (fs : FS) (now : Int) (st0 : StateRec) :
    (persistedState (should_deploy true autoKey fs now st0).1 st0).last_file_hashes
      = (detect_core fs st0.last_file_hashes).2 := by
  rw [should_deploy_auto_eq]
  unfold autoBody
  split
  · simp [persistedState, autoStateA, detect_changes]
  · split
    · simp [persistedState, autoStateA, detect_changes]
    · simp [persistedState, autoStateA, detect_changes]

/-- Claim C6 counterexample: when the code file becomes unreadable after a
fingerprint for it was stored, _detect_changes records a change (flag set
and total_changes incremented) and overwrites the fingerprint entry with
the null marker, contradicting the claim that unreadable files contribute
no change and no fingerprint write. -/
theorem C6_counterexample :
    (detect_changes
      { hash := fun _ => none, reportDirExists := false, reportFiles := [] }
      { changes_since_last_report_deploy := 0, last_homepage_deploy := 0,
        last_report_deploy := 0, last_file_hashes := [(pyKey, some "abc")],
        deployment_history := [] }).1.code_changed = true ∧
    (detect_changes
      { hash := fun _ => none, reportDirExists := false, reportFiles := [] }
      { changes_since_last_report_deploy := 0, last_homepage_deploy := 0,
        last_report_deploy := 0, last_file_hashes := [(pyKey, some "abc")],
        deployment_history := [] }).1.total_changes = 1 ∧
    (detect_changes
      { hash := fun _ => none, reportDirExists := false, reportFiles := [] }
      { changes_since_last_report_deploy := 0, last_homepage_deploy := 0,
        last_report_deploy := 0, last_file_hashes := [(pyKey, some "abc")],
        deployment_history := [] }).2.last_file_hashes = [(pyKey, none)] := by
  decide

/-- A key absent from the table reads back as none through dict.get. -/
theorem dictGet_of_not_hasKey (d : HashDict) (k : String)
    (h : dictHasKey d k = false) : dictGet d k = none := by
  induction d with
  | nil => rfl
  | cons p ps ih =>
    simp only [dictHasKey, Bool.or_eq_false_iff] at h
    simp only [dictGet, h.1, Bool.false_eq_true, if_false]
    exact ih h.2

/-- Writing one key does not create any other key. -/
theorem dictHasKey_dictSet_ne (d : HashDict) (k k' : String) (v : Option String)
    (h : k ≠ k') : dictHasKey (dictSet d k v) k' = dictHasKey d k' := by
  induction d with
  | nil => simp [dictHasKey, dictSet, h]
  | cons p ps ih =>
    by_cases hp : p.1 = k
    · simp [dictHasKey, dictSet, hp, h]
    · simp [dictHasKey, dictSet, hp, ih]

/-- An unreadable, never-fingerprinted file can be deleted from the sample
without changing the sampling loop at all: its iteration neither bumps the
counter nor writes the table, whatever the surrounding files do. -/
theorem detectReports_erase (fs : FS) (f : String) (hf : fs.hash f = none) :
    ∀ (l₁ l₂ : List String) (n : Nat) (d : HashDict), dictGet d f = none →
      detectReports fs (l₁ ++ f :: l₂) n d = detectReports fs (l₁ ++ l₂) n d := by
  intro l₁
  induction l₁ with
  | nil =>
    intro l₂ n d hd
    show detectReports fs (f :: l₂) n d = detectReports fs l₂ n d
    have hcond : (fs.hash f != dictGet d f) = false := by
      rw [hf, hd]
      rfl
    conv_lhs => rw [detectReports]
    rw [hcond]
    simp
  | cons g l₁ ih =>
    intro l₂ n d hd
    show detectReports fs (g :: (l₁ ++ f :: l₂)) n d
        = detectReports fs (g :: (l₁ ++ l₂)) n d
    unfold detectReports
    by_cases hg : (fs.hash g != dictGet d g) = true
    · rw [if_pos hg, if_pos hg]
      refine ih l₂ (n + 1) _ ?_
      by_cases hgf : g = f
      · subst hgf
        rw [dictGet_dictSet_self, hf]
      · rw [dictGet_dictSet_ne _ _ _ _ hgf]
        exact hd
    · rw [if_neg hg, if_neg hg]
      exact ih l₂ n d hd

/-- The sampling loop never creates a table entry for an unreadable file
that had none: a write for it would require its hash to differ from the
absent stored value, and both are none. -/
theorem detectReports_hasKey_none (fs : FS) (f : String) (hf : fs.hash f = none) :
    ∀ (l : List String) (n : Nat) (d : HashDict), dictHasKey d f = false →
      dictHasKey (detectReports fs l n d).2 f = false := by
  intro l
  induction l with
  | nil => intro n d hk; exact hk
  | cons g rest ih =>
    intro n d hk
    unfold detectReports
    by_cases hgf : g = f
    · subst hgf
      have hcond : (fs.hash g != dictGet d g) = false := by
        rw [hf, dictGet_of_not_hasKey d g hk]
        rfl
      rw [hcond]
      simp only [Bool.false_eq_true, if_false]
      exact ih n d hk
    · split
      · refine ih (n + 1) _ ?_
        rw [dictHasKey_dictSet_ne _ _ _ _ hgf]
        exact hk
      · exact ih n d hk

/-- The code stage never creates a table entry for an unreadable file that
had none. -/
theorem codeStep_hasKey_none (fs : FS) (d : HashDict) (f : String)
    (hf : fs.hash f = none) (hk : dictHasKey d f = false) :
    dictHasKey (codeStep fs d).2 f = false := by
  by_cases hp : f = pyKey
  · subst hp
    rw [codeStep_of_eq fs d (by rw [dictGet_of_not_hasKey d _ hk, hf])]
    exact hk
  · unfold codeStep
    split
    · rw [dictHasKey_dictSet_ne _ _ _ _ fun h => hp h.symm]
      exact hk
    · exact hk

/-- The homepage stage touches no key other than the homepage key. -/
theorem homeStep_hasKey_ne (fs : FS) (d : HashDict) (f : String)
    (h : f ≠ indexKey) : dictHasKey (homeStep fs d).2 f = dictHasKey d f := by
  unfold homeStep
  split
  · exact dictHasKey_dictSet_ne _ _ _ _ fun he => h he.symm
  · rfl

/-- The sampling stage never creates a table entry for an unreadable file
that had none. -/
theorem reportStep_hasKey_none (fs : FS) (d : HashDict) (f : String)
    (hf : fs.hash f = none) (hk : dictHasKey d f = false) :
    dictHasKey (reportStep fs d).2 f = false := by
  unfold reportStep
  split
  · exact detectReports_hasKey_none fs f hf _ 0 d hk
  · exact hk

/-- Claim C6 amended (per file): a tracked file that cannot be read during
a pass contributes no change and no fingerprint write provided no table
entry for it was stored previously, regardless of what the other tracked
files do: the unreadable code file leaves code_changed false and gains no
entry; an unreadable (falsy) homepage artifact leaves homepage_changed
false and its stored fingerprint untouched (entry preservation stated
under the always-true-in-the-source side condition that the bare homepage
key is not among the sampled, directory-prefixed report paths); an
unreadable never-fingerprinted report file can be deleted from the sample
without changing the loop's count or table, and gains no entry in the full
pass. With a stored prior fingerprint, an unreadable code or report file
is instead counted as a change (see the counterexample). -/
theorem C6_missing_files_amended (fs : FS) (st : StateRec) :
    (fs.hash pyKey = none → dictHasKey st.last_file_hashes pyKey = false →
      (detect_changes fs st).1.code_changed = false ∧
      dictHasKey (detect_changes fs st).2.last_file_hashes pyKey = false) ∧
    (pyTruthy (fs.hash indexSrc) = false →
      (detect_changes fs st).1.homepage_changed = false ∧
      (indexKey ∉ fs.reportFiles.take 10 →
        dictGet (detect_changes fs st).2.last_file_hashes indexKey
          = dictGet st.last_file_hashes indexKey)) ∧
    (∀ (f : String) (l₁ l₂ : List String) (n : Nat) (d : HashDict),
      fs.hash f = none → dictGet d f = none →
      detectReports fs (l₁ ++ f :: l₂) n d = detectReports fs (l₁ ++ l₂) n d) ∧
    (∀ f : String, fs.hash f = none → dictHasKey st.last_file_hashes f = false →
      f ≠ indexKey →
      dictHasKey (detect_changes fs st).2.last_file_hashes f = false) := by
  refine ⟨?_, ?_, ?_, ?_⟩
  · intro hf hk
    have hcs : codeStep fs st.last_file_hashes = (false, st.last_file_hashes) :=
      codeStep_of_eq fs _ (by rw [dictGet_of_not_hasKey _ _ hk, hf])
    constructor
    · show (codeStep fs st.last_file_hashes).1 = false
      rw [hcs]
    · show dictHasKey
        (reportStep fs (homeStep fs (codeStep fs st.last_file_hashes).2).2).2 pyKey
        = false
      refine reportStep_hasKey_none fs _ pyKey hf ?_
      rw [homeStep_hasKey_ne fs _ pyKey (by decide)]
      exact codeStep_hasKey_none fs _ pyKey hf hk
  · intro ht
    have hhs : homeStep fs (codeStep fs st.last_file_hashes).2
        = (false, (codeStep fs st.last_file_hashes).2) :=
      homeStep_of_eq fs _ (fun htr => absurd (ht.symm.trans htr) (by decide))
    constructor
    · show (homeStep fs (codeStep fs st.last_file_hashes).2).1 = false
      rw [hhs]
    · intro hidx
      show dictGet
        (reportStep fs (homeStep fs (codeStep fs st.last_file_hashes).2).2).2 indexKey
        = dictGet st.last_file_hashes indexKey
      rw [reportStep_get_ne _ _ _ hidx, hhs]
      exact codeStep_get_ne fs _ indexKey (by decide)
  · intro f l₁ l₂ n d hf hd
    exact detectReports_erase fs f hf l₁ l₂ n d hd
  · intro f hf hk hix
    show dictHasKey
      (reportStep fs (homeStep fs (codeStep fs st.last_file_hashes).2).2).2 f = false
    refine reportStep_hasKey_none fs _ f hf ?_
    rw [homeStep_hasKey_ne fs _ f hix]
    exact codeStep_hasKey_none fs _ f hf hk

/-- Claim C6 witness: the partial-unavailability fixture, in which one
report file is readable and changed while the code file, the homepage
artifact, and a second report file are unreadable: the unreadable files
contribute no change flag, no count, and no table entry, even though the
pass itself detects the readable file's change. -/
theorem C6_missing_files_amended_witness :
    ((detect_changes fsC6 defaultState).1.code_changed = false ∧
      dictHasKey (detect_changes fsC6 defaultState).2.last_file_hashes pyKey = false) ∧
    ((detect_changes fsC6 defaultState).1.homepage_changed = false ∧
      dictGet (detect_changes fsC6 defaultState).2.last_file_hashes indexKey
        = dictGet defaultState.last_file_hashes indexKey) ∧
    detectReports fsC6 ([gRepC6] ++ fRepC6 :: []) 0 []
      = detectReports fsC6 ([gRepC6] ++ []) 0 [] ∧
    dictHasKey (detect_changes fsC6 defaultState).2.last_file_hashes fRepC6 = false := by
  obtain ⟨p1, p2, p3, p4⟩ := C6_missing_files_amended fsC6 defaultState
  exact ⟨p1 (by decide) (by decide),
    ⟨(p2 (by decide)).1, (p2 (by decide)).2 (by decide)⟩,
    p3 fRepC6 [gRepC6] [] 0 [] (by decide) (by decide),
    p4 fRepC6 (by decide) (by decide) (by decide)⟩

/-- Claim C8 counterexample: from the default-initialized state, with the
code file present and hashing to H0 and nothing else on disk, the very
first auto invocation reports code_changed = true with total_changes = 1
and dispatches a full-report deploy, contradicting the claim of a no-op
first run. -/
theorem C8_counterexample :
    (detect_changes
      { hash := fun p => if p == pyKey then some "h0" else none,
        reportDirExists := false, reportFiles := [] }
      defaultState).1.code_changed = true ∧
    (detect_changes
      { hash := fun p => if p == pyKey then some "h0" else none,
        reportDirExists := false, reportFiles := [] }
      defaultState).1.total_changes = 1 ∧
    Event.deployFullReports ∈ (should_deploy true autoKey
      { hash := fun p => if p == pyKey then some "h0" else none,
        reportDirExists := false, reportFiles := [] }
      1000 defaultState).1 := by
  decide

/-- Claim C8 amended: the first observation of the code file counts as a
change, so the first auto invocation from default state dispatches a
full-report deploy (the code_changed flag bypasses both the threshold and
the report cooldown) and persists H0 as the code fingerprint with the
counter reset to 0 and last_report_deploy set to now. -/
theorem C8_first_run_amended (h0 : String) (now : Int) :
    should_deploy true autoKey
      { hash := fun p => if p == pyKey then some h0 else none,
        reportDirExists := false, reportFiles := [] }
      now defaultState =
    ([Event.save
        { changes_since_last_report_deploy := 0, last_homepage_deploy := 0,
          last_report_deploy := now, last_file_hashes := [(pyKey, some h0)],
          deployment_history := [] },
      Event.deployFullReports], true) := by
  rw [should_deploy_auto_eq]
  have hdet : detect_changes
      { hash := fun p => if p == pyKey then some h0 else none,
        reportDirExists := false, reportFiles := [] }
      defaultState =
      (⟨false, false, true, 1⟩,
        { changes_since_last_report_deploy := 0, last_homepage_deploy := 0,
          last_report_deploy := 0, last_file_hashes := [(pyKey, some h0)],
          deployment_history := [] }) := by
    unfold detect_changes detect_core codeStep homeStep reportStep
    simp [pyTruthy, dictGet, dictSet, defaultState, indexSrc, pyKey]
  unfold autoBody autoStateA
  rw [hdet]
  simp

/-- Claim C7 counterexample: two immediately successive auto invocations
with identical file contents can still deploy on the second call: the
first call dispatches a homepage deploy while the accumulator reaches the
threshold, and the second call, despite detecting zero changes, dispatches
a full-report deploy from the accumulated counter alone. -/
theorem C7_counterexample :
    (detect_changes
      { hash := fun p => if p == pyKey then some "c" else
          (if p == indexSrc then some "i2" else none),
        reportDirExists := false, reportFiles := [] }
      (persistedState (should_deploy true autoKey
        { hash := fun p => if p == pyKey then some "c" else
            (if p == indexSrc then some "i2" else none),
          reportDirExists := false, reportFiles := [] }
        1000
        { changes_since_last_report_deploy := 4, last_homepage_deploy := 0,
          last_report_deploy := 0,
          last_file_hashes := [(pyKey, some "c"), (indexKey, some "i1")],
          deployment_history := [] }).1
        { changes_since_last_report_deploy := 4, last_homepage_deploy := 0,
          last_report_deploy := 0,
          last_file_hashes := [(pyKey, some "c"), (indexKey, some "i1")],
          deployment_history := [] })).1.total_changes = 0 ∧
    Event.deployFullReports ∈ (should_deploy true autoKey
      { hash := fun p => if p == pyKey then some "c" else
          (if p == indexSrc then some "i2" else none),
        reportDirExists := false, reportFiles := [] }
      1000
      (persistedState (should_deploy true autoKey
        { hash := fun p => if p == pyKey then some "c" else
            (if p == indexSrc then some "i2" else none),
          reportDirExists := false, reportFiles := [] }
        1000
        { changes_since_last_report_deploy := 4, last_homepage_deploy := 0,
          last_report_deploy := 0,
          last_file_hashes := [(pyKey, some "c"), (indexKey, some "i1")],
          deployment_history := [] }).1
        { changes_since_last_report_deploy := 4, last_homepage_deploy := 0,
          last_report_deploy := 0,
          last_file_hashes := [(pyKey, some "c"), (indexKey, some "i1")],
          deployment_history := [] })).1 := by
  decide

/-- Claim C7 amended: with unchanged file contents the second auto
invocation always detects zero changes (fingerprints are stable), and it
dispatches no deploy provided the persisted accumulator is still below the
threshold or the report cooldown is unsatisfied at the second call; when
the accumulator already reached the threshold with the cooldown satisfied,
the second call deploys despite detecting nothing (see counterexample). -/
theorem C7_idempotent_noop_amended (fs : FS) (n1 n2 : Int) (st0 : StateRec)
    (hidx : indexKey ∉ fs.reportFiles.take 10)
    (hguard : (persistedState (should_deploy true autoKey fs n1 st0).1
        st0).changes_since_last_report_deploy < changes_threshold ∨
      ¬(n2 - (persistedState (should_deploy true autoKey fs n1 st0).1
        st0).last_report_deploy > report_cooldown)) :
    (detect_changes fs
        (persistedState (should_deploy true autoKey fs n1 st0).1 st0)).1 = noChanges ∧
    Event.deployHomepage ∉ (should_deploy true autoKey fs n2
      (persistedState (should_deploy true autoKey fs n1 st0).1 st0)).1 ∧
    Event.deployFullReports ∉ (should_deploy true autoKey fs n2
      (persistedState (should_deploy true autoKey fs n1 st0).1 st0)).1 := by
  set st1 := persistedState (should_deploy true autoKey fs n1 st0).1 st0 with hst1
  have hdict : st1.last_file_hashes = (detect_core fs st0.last_file_hashes).2 :=
    auto_persisted_dict fs n1 st0
  have hstab : detect_changes fs st1 = (noChanges, st1) :=
    detect_changes_stable fs st1 st0.last_file_hashes hidx hdict
  refine ⟨by rw [hstab], ?_⟩
  rw [should_deploy_auto_eq]
  unfold autoBody autoStateA
  rw [hstab]
  rcases hguard with hlt | hnr
  · have hng : ¬(changes_threshold ≤ st1.changes_since_last_report_deploy
        ∧ report_cooldown < n2 - st1.last_report_deploy) :=
      fun hand => absurd hand.1 (Nat.not_le.mpr hlt)
    simp [noChanges, hng]
  · have hng : ¬(changes_threshold ≤ st1.changes_since_last_report_deploy
        ∧ report_cooldown < n2 - st1.last_report_deploy) :=
      fun hand => absurd hand.2 hnr
    simp [noChanges, hng]

/-- Claim C7 witness: a concrete pair of immediate auto invocations (no
file changed, accumulator below threshold) in which the second call
detects nothing and dispatches nothing. -/
theorem C7_idempotent_noop_amended_witness :
    (detect_changes (fsW "h1")
        (persistedState (should_deploy true autoKey (fsW "h1") 1000 (stW 0 0 (some "h1"))).1
          (stW 0 0 (some "h1")))).1 = noChanges ∧
    Event.deployHomepage ∉ (should_deploy true autoKey (fsW "h1") 1000
      (persistedState (should_deploy true autoKey (fsW "h1") 1000 (stW 0 0 (some "h1"))).1
        (stW 0 0 (some "h1")))).1 ∧
    Event.deployFullReports ∉ (should_deploy true autoKey (fsW "h1") 1000
      (persistedState (should_deploy true autoKey (fsW "h1") 1000 (stW 0 0 (some "h1"))).1
        (stW 0 0 (some "h1")))).1 :=
  C7_idempotent_noop_amended (fsW "h1") 1000 1000 (stW 0 0 (some "h1"))
    (by decide) (Or.inl (by decide))

/-- An auto-class run whose detection reports no homepage change, no code
change, and too few accumulated changes for the threshold is a no-op that
persists only the bumped accumulator. -/
theorem auto_step_noop (fs : FS) (now : Int) (st : StateRec)
    (hh : (detect_changes fs st).1.homepage_changed = false)
    (hc : (detect_changes fs st).1.code_changed = false)
    (hlt : st.changes_since_last_report_deploy
        + (detect_changes fs st).1.total_changes < changes_threshold) :
    should_deploy true autoKey fs now st = ([Event.save (autoStateA fs st)], true) := by
  rw [should_deploy_auto_eq]
  unfold autoBody
  rw [hh]
  have hng : ¬(changes_threshold ≤ (autoStateA fs st).changes_since_last_report_deploy) := by
    have hacc : (autoStateA fs st).changes_since_last_report_deploy
        = st.changes_since_last_report_deploy + (detect_changes fs st).1.total_changes := rfl
    rw [hacc]
    exact Nat.not_le.mpr hlt
  simp [hng, hc]

/-- An auto-class run whose detection reports no homepage change but whose
accumulator reaches the threshold with the report cooldown satisfied
dispatches the full-report deploy and persists the reset state. -/
theorem auto_step_report (fs : FS) (now : Int) (st : StateRec)
    (hh : (detect_changes fs st).1.homepage_changed = false)
    (hge : changes_threshold ≤ st.changes_since_last_report_deploy
        + (detect_changes fs st).1.total_changes)
    (hready : now - st.last_report_deploy > report_cooldown) :
    should_deploy true autoKey fs now st
      = ([Event.save { autoStateA fs st with
          changes_since_last_report_deploy := 0, last_report_deploy := now },
        Event.deployFullReports], true) := by
  rw [should_deploy_auto_eq]
  unfold autoBody
  rw [hh]
  have hge2 : changes_threshold ≤ (autoStateA fs st).changes_since_last_report_deploy := hge
  have hready2 : report_cooldown < now - (detect_changes fs st).2.last_report_deploy := hready
  simp [hge2, hready2]

/-- A trace consisting of one save persists exactly that state. -/
theorem persistedState_one (s : StateRec) (st0 : StateRec) :
    persistedState [Event.save s] st0 = s := rfl

/-- A save followed by a full-report dispatch persists the saved state. -/
theorem persistedState_report (s : StateRec) (st0 : StateRec) :
    persistedState [Event.save s, Event.deployFullReports] st0 = s := rfl

/-- Claim C5: starting from a zero accumulator, five successive auto
invocations each detecting exactly one report-file change (no homepage or
code change, report cooldown satisfied throughout) dispatch nothing on the
first four calls, dispatch the full-report deploy exactly on the fifth,
and leave the accumulator at 0 immediately afterwards. -/
theorem C5_threshold_accumulation
    (fs1 fs2 fs3 fs4 fs5 : FS) (n1 n2 n3 n4 n5 : Int)
    (st0 st1 st2 st3 st4 st5 : StateRec)
    (h0 : st0.changes_since_last_report_deploy = 0)
    (e1 : st1 = persistedState (should_deploy true autoKey fs1 n1 st0).1 st0)
    (e2 : st2 = persistedState (should_deploy true autoKey fs2 n2 st1).1 st1)
    (e3 : st3 = persistedState (should_deploy true autoKey fs3 n3 st2).1 st2)
    (e4 : st4 = persistedState (should_deploy true autoKey fs4 n4 st3).1 st3)
    (e5 : st5 = persistedState (should_deploy true autoKey fs5 n5 st4).1 st4)
    (d1 : (detect_changes fs1 st0).1.homepage_changed = false
      ∧ (detect_changes fs1 st0).1.code_changed = false
      ∧ (detect_changes fs1 st0).1.total_changes = 1)
    (d2 : (detect_changes fs2 st1).1.homepage_changed = false
      ∧ (detect_changes fs2 st1).1.code_changed = false
      ∧ (detect_changes fs2 st1).1.total_changes = 1)
    (d3 : (detect_changes fs3 st2).1.homepage_changed = false
      ∧ (detect_changes fs3 st2).1.code_changed = false
      ∧ (detect_changes fs3 st2).1.total_changes = 1)
    (d4 : (detect_changes fs4 st3).1.homepage_changed = false
      ∧ (detect_changes fs4 st3).1.code_changed = false
      ∧ (detect_changes fs4 st3).1.total_changes = 1)
    (d5 : (detect_changes fs5 st4).1.homepage_changed = false
      ∧ (detect_changes fs5 st4).1.code_changed = false
      ∧ (detect_changes fs5 st4).1.total_changes = 1)
    (r1 : n1 - st0.last_report_deploy > report_cooldown)
    (r2 : n2 - st1.last_report_deploy > report_cooldown)
    (r3 : n3 - st2.last_report_deploy > report_cooldown)
    (r4 : n4 - st3.last_report_deploy > report_cooldown)
    (r5 : n5 - st4.last_report_deploy > report_cooldown) :
    (Event.deployHomepage ∉ (should_deploy true autoKey fs1 n1 st0).1
      ∧ Event.deployFullReports ∉ (should_deploy true autoKey fs1 n1 st0).1)
    ∧ (Event.deployHomepage ∉ (should_deploy true autoKey fs2 n2 st1).1
      ∧ Event.deployFullReports ∉ (should_deploy true autoKey fs2 n2 st1).1)
    ∧ (Event.deployHomepage ∉ (should_deploy true autoKey fs3 n3 st2).1
      ∧ Event.deployFullReports ∉ (should_deploy true autoKey fs3 n3 st2).1)
    ∧ (Event.deployHomepage ∉ (should_deploy true autoKey fs4 n4 st3).1
      ∧ Event.deployFullReports ∉ (should_deploy true autoKey fs4 n4 st3).1)
    ∧ Event.deployFullReports ∈ (should_deploy true autoKey fs5 n5 st4).1
    ∧ st5.changes_since_last_report_deploy = 0 := by
  obtain ⟨d1h, d1c, d1t⟩ := d1
  obtain ⟨d2h, d2c, d2t⟩ := d2
  obtain ⟨d3h, d3c, d3t⟩ := d3
  obtain ⟨d4h, d4c, d4t⟩ := d4
  obtain ⟨d5h, d5c, d5t⟩ := d5
  have s1 : should_deploy true autoKey fs1 n1 st0
      = ([Event.save (autoStateA fs1 st0)], true) :=
    auto_step_noop _ _ _ d1h d1c (by rw [h0, d1t]; decide)
  have a1 : st1.changes_since_last_report_deploy = 1 := by
    rw [e1, s1, persistedState_one]
    show st0.changes_since_last_report_deploy + (detect_changes fs1 st0).1.total_changes = 1
    rw [h0, d1t]
  have s2 : should_deploy true autoKey fs2 n2 st1
      = ([Event.save (autoStateA fs2 st1)], true) :=
    auto_step_noop _ _ _ d2h d2c (by rw [a1, d2t]; decide)
  have a2 : st2.changes_since_last_report_deploy = 2 := by
    rw [e2, s2, persistedState_one]
    show st1.changes_since_last_report_deploy + (detect_changes fs2 st1).1.total_changes = 2
    rw [a1, d2t]
  have s3 : should_deploy true autoKey fs3 n3 st2
      = ([Event.save (autoStateA fs3 st2)], true) :=
    auto_step_noop _ _ _ d3h d3c (by rw [a2, d3t]; decide)
  have a3 : st3.changes_since_last_report_deploy = 3 := by
    rw [e3, s3, persistedState_one]
    show st2.changes_since_last_report_deploy + (detect_changes fs3 st2).1.total_changes = 3
    rw [a2, d3t]
  have s4 : should_deploy true autoKey fs4 n4 st3
      = ([Event.save (autoStateA fs4 st3)], true) :=
    auto_step_noop _ _ _ d4h d4c (by rw [a3, d4t]; decide)
  have a4 : st4.changes_since_last_report_deploy = 4 := by
    rw [e4, s4, persistedState_one]
    show st3.changes_since_last_report_deploy + (detect_changes fs4 st3).1.total_changes = 4
    rw [a3, d4t]
  have s5 : should_deploy true autoKey fs5 n5 st4
      = ([Event.save { autoStateA fs5 st4 with
          changes_since_last_report_deploy := 0, last_report_deploy := n5 },
        Event.deployFullReports], true) :=
    auto_step_report _ _ _ d5h (by rw [a4, d5t]; decide) r5
  refine ⟨?_, ?_, ?_, ?_, ?_, ?_⟩
  · rw [s1]
    constructor <;> simp
  · rw [s2]
    constructor <;> simp
  · rw [s3]
    constructor <;> simp
  · rw [s4]
    constructor <;> simp
  · rw [s5]
    simp
  · rw [e5, s5, persistedState_report]

/-- Claim C5 witness: the concrete five-invocation scenario, one report
change per pass, deploying exactly on the fifth call. -/
theorem C5_threshold_accumulation_witness :
    (Event.deployHomepage ∉ (should_deploy true autoKey (fsW "h1") 1001 (stW 0 0 none)).1
      ∧ Event.deployFullReports ∉ (should_deploy true autoKey (fsW "h1") 1001 (stW 0 0 none)).1)
    ∧ (Event.deployHomepage ∉
        (should_deploy true autoKey (fsW "h2") 1002 (stW 1 0 (some "h1"))).1
      ∧ Event.deployFullReports ∉
        (should_deploy true autoKey (fsW "h2") 1002 (stW 1 0 (some "h1"))).1)
    ∧ (Event.deployHomepage ∉
        (should_deploy true autoKey (fsW "h3") 1003 (stW 2 0 (some "h2"))).1
      ∧ Event.deployFullReports ∉
        (should_deploy true autoKey (fsW "h3") 1003 (stW 2 0 (some "h2"))).1)
    ∧ (Event.deployHomepage ∉
        (should_deploy true autoKey (fsW "h4") 1004 (stW 3 0 (some "h3"))).1
      ∧ Event.deployFullReports ∉
        (should_deploy true autoKey (fsW "h4") 1004 (stW 3 0 (some "h3"))).1)
    ∧ Event.deployFullReports ∈
        (should_deploy true autoKey (fsW "h5") 1005 (stW 4 0 (some "h4"))).1
    ∧ (stW 0 1005 (some "h5")).changes_since_last_report_deploy = 0 :=
  C5_threshold_accumulation
    (fsW "h1") (fsW "h2") (fsW "h3") (fsW "h4") (fsW "h5")
    1001 1002 1003 1004 1005
    (stW 0 0 none) (stW 1 0 (some "h1")) (stW 2 0 (some "h2"))
    (stW 3 0 (some "h3")) (stW 4 0 (some "h4")) (stW 0 1005 (some "h5"))
    (by decide) (by decide) (by decide) (by decide) (by decide) (by decide)
    (by decide) (by decide) (by decide) (by decide) (by decide)
    (by decide) (by decide) (by decide) (by decide) (by decide)

/-- Claim C9 counterexample: rewriting with token 2 a document already
rewritten with token 1 leaves token 1 in place (the already-tokenized
reference no longer matches the pattern), so the second token does not
replace the first: the twice-rewritten output equals the once-rewritten
output and differs from the output rewritten directly with token 2. -/
theorem C9_counterexample :
    add_cache_busting_to_html
        (add_cache_busting_to_html (("<a href=\"a.css\">").toList) (("1").toList))
        (("2").toList)
      = add_cache_busting_to_html (("<a href=\"a.css\">").toList) (("1").toList) ∧
    add_cache_busting_to_html (("<a href=\"a.css\">").toList) (("1").toList)
      ≠ add_cache_busting_to_html (("<a href=\"a.css\">").toList) (("2").toList) := by
  decide

/-- Boolean literal test agrees with the prefix relation. -/
theorem startsWith_iff (l s : List Char) : startsWith l s = true ↔ l <+: s := by
  induction l generalizing s with
  | nil => simp [startsWith]
  | cons a as ih =>
    cases s with
    | nil => simp [startsWith]
    | cons b bs =>
      rw [List.cons_prefix_cons]
      simp [startsWith, ih]

/-- A list is a literal prefix of itself followed by anything. -/
theorem startsWith_append (l r : List Char) : startsWith l (l ++ r) = true := by
  induction l with
  | nil => rfl
  | cons a as ih => simp [startsWith, ih]

/-- A head mismatch refutes the literal test. -/
theorem startsWith_cons_false (a b : Char) (l s : List Char) (h : (a == b) = false) :
    startsWith (a :: l) (b :: s) = false := by
  simp [startsWith, h]

/-- The empty input passes no nonempty literal test. -/
theorem startsWith_nil_false (a : Char) (l : List Char) :
    startsWith (a :: l) [] = false := rfl

/-- Every list ends with any of its own suffixes split off by append. -/
theorem endsWith_append (p suf : List Char) : endsWith (p ++ suf) suf = true := by
  unfold endsWith
  rw [List.reverse_append]
  exact startsWith_append _ _

/-- Lists with different last elements do not end with one another. -/
theorem endsWith_false_of_getLast_ne (l suf : List Char) (a b : Char)
    (hl : l.getLast? = some a) (hs : suf.getLast? = some b) (hne : (b == a) = false) :
    endsWith l suf = false := by
  unfold endsWith
  have hlr : ∃ lr, l.reverse = a :: lr := by
    cases hrev : l.reverse with
    | nil =>
      rw [← List.head?_reverse, hrev] at hl
      exact absurd hl (by simp)
    | cons x xs =>
      rw [← List.head?_reverse, hrev] at hl
      simp at hl
      exact ⟨xs, by rw [hl]⟩
  have hsr : ∃ sr, suf.reverse = b :: sr := by
    cases hrev : suf.reverse with
    | nil =>
      rw [← List.head?_reverse, hrev] at hs
      exact absurd hs (by simp)
    | cons x xs =>
      rw [← List.head?_reverse, hrev] at hs
      simp at hs
      exact ⟨xs, by rw [hs]⟩
  obtain ⟨lr, hlr⟩ := hlr
  obtain ⟨sr, hsr⟩ := hsr
  rw [hlr, hsr]
  exact startsWith_cons_false _ _ _ _ hne

/-- splitQuote passes over a quote-free block and stops at the quote. -/
theorem splitQuote_append_quote (A r : List Char) (hA : ∀ c ∈ A, c ≠ '"') :
    splitQuote (A ++ '"' :: r) = (A, '"' :: r) := by
  induction A with
  | nil => simp [splitQuote]
  | cons c cs ih =>
    have hc : (c == '"') = false := by
      have := hA c (List.mem_cons_self c cs)
      simp [this]
    simp only [List.cons_append, splitQuote, hc, Bool.false_eq_true, if_false, List.append_eq]
    rw [ih fun x hx => hA x (List.mem_cons_of_mem c hx)]

/-- matchRef fails whenever the opening literal is not present. -/
theorem matchRef_none_of_not_startsWith (lit : List Char) (sufs : List (List Char))
    (s : List Char) (h : startsWith lit s = false) :
    matchRef lit sufs s = none := by
  unfold matchRef
  rw [h]
  simp

/-- matchRef at a present opening literal followed by a quote-free run and
a closing quote reduces to the extension test on the run. -/
theorem matchRef_pos (lit : List Char) (sufs : List (List Char)) (A r : List Char)
    (hA : ∀ c ∈ A, c ≠ '"') :
    matchRef lit sufs (lit ++ (A ++ '"' :: r))
      = (if sufs.any (fun suf => endsWith A suf && decide (suf.length < A.length))
          then some (A, r) else none) := by
  unfold matchRef
  rw [startsWith_append]
  simp only [if_pos rfl, List.drop_left, splitQuote_append_quote A r hA]
  rw [if_pos trivial]

/-- Scanning the empty input yields the empty output at any fuel. -/
theorem subRefFuel_nil (lit : List Char) (sufs : List (List Char)) (ts : List Char)
    (n : Nat) : subRefFuel lit sufs ts n [] = [] := by
  cases n <;> rfl

/-- One scan step over a non-matching position. -/
theorem subRefFuel_skip (lit : List Char) (sufs : List (List Char)) (ts : List Char)
    (n : Nat) (c : Char) (cs : List Char)
    (h : matchRef lit sufs (c :: cs) = none) :
    subRefFuel lit sufs ts (n + 1) (c :: cs) = c :: subRefFuel lit sufs ts n cs := by
  simp [subRefFuel, h]

/-- One scan step over a matching position. -/
theorem subRefFuel_match (lit : List Char) (sufs : List (List Char)) (ts : List Char)
    (n : Nat) (c : Char) (cs r rest : List Char)
    (h : matchRef lit sufs (c :: cs) = some (r, rest)) :
    subRefFuel lit sufs ts (n + 1) (c :: cs)
      = lit ++ r ++ tokenPart ts ++ '"' :: subRefFuel lit sufs ts n rest := by
  simp [subRefFuel, h]

/-- A scan over input none of whose suffixes matches is the identity. -/
theorem subRefFuel_id_of_none (lit : List Char) (sufs : List (List Char)) (ts : List Char)
    (s : List Char) (h : ∀ t, t <:+ s → matchRef lit sufs t = none) :
    ∀ n, s.length ≤ n → subRefFuel lit sufs ts n s = s := by
  induction s with
  | nil => intro n _; exact subRefFuel_nil _ _ _ _
  | cons c cs ih =>
    intro n hn
    cases n with
    | zero => simp at hn
    | succ m =>
      rw [subRefFuel_skip _ _ _ _ _ _ (h (c :: cs) (List.suffix_refl _))]
      rw [ih (fun t ht => h t (ht.trans (List.suffix_cons c cs))) m
        (by simpa using Nat.lt_succ_iff.mp (Nat.lt_of_lt_of_le (Nat.lt_succ_self _) hn))]

/-- Full-pass form of the identity scan. -/
theorem subRef_id_of_none (lit : List Char) (sufs : List (List Char)) (ts : List Char)
    (s : List Char) (h : ∀ t, t <:+ s → matchRef lit sufs t = none) :
    subRef lit sufs ts s = s :=
  subRefFuel_id_of_none lit sufs ts s h s.length (Nat.le_refl _)

/-- A suffix of a quote-terminated string is empty or itself a
quote-terminated suffix of the body. -/
theorem suffix_concat_decomp (t A : List Char) (q : Char) (h : t <:+ A ++ [q]) :
    t = [] ∨ ∃ B, B <:+ A ∧ t = B ++ [q] := by
  rcases List.eq_nil_or_concat t with rfl | ⟨t', b, rfl⟩
  · exact Or.inl rfl
  · right
    rw [List.concat_eq_append] at h
    obtain ⟨u, hu⟩ := h
    rw [← List.append_assoc] at hu
    obtain ⟨hu1, hu2⟩ := List.append_inj' hu (by simp)
    refine ⟨t', ⟨u, hu1⟩, ?_⟩
    rw [List.concat_eq_append]
    simp at hu2
    rw [hu2]

/-- No suffix of a quote-free body followed by its closing quote can start
with a quote-terminated literal whose stem ends differently from the body:
a longer overlap would put a quote inside the body, an exact overlap is
excluded by the differing last characters, and a shorter one is too short
to contain the literal. -/
theorem startsWith_quote_lit_false (l0 A : List Char) (hl0 : l0 ≠ [])
    (hA : ∀ c ∈ A, c ≠ '"') (hlast : A.getLast? ≠ l0.getLast?) :
    ∀ t, t <:+ A ++ ['"'] → startsWith (l0 ++ ['"']) t = false := by
  intro t ht
  rcases suffix_concat_decomp t A '"' ht with rfl | ⟨B, hB, rfl⟩
  · cases l0 with
    | nil => exact absurd rfl hl0
    | cons c cs => rfl
  · rw [Bool.eq_false_iff]
    intro hx
    have hpre : (l0 ++ ['"']) <+: (B ++ ['"']) := (startsWith_iff _ _).mp hx
    obtain ⟨u, hu⟩ := hpre
    rcases List.eq_nil_or_concat u with rfl | ⟨u', x, rfl⟩
    · rw [List.append_nil] at hu
      have hBeq : l0 = B := List.append_cancel_right hu
      subst hBeq
      obtain ⟨w, rfl⟩ := hB
      rw [List.getLast?_append_of_ne_nil w hl0] at hlast
      exact hlast rfl
    · rw [List.concat_eq_append, ← List.append_assoc] at hu
      obtain ⟨hu1, _⟩ := List.append_inj' hu (by simp)
      have hq : '"' ∈ B := by
        rw [← hu1]
        simp
      exact hA '"' (hB.subset hq) rfl

/-- No suffix of an already-tokenized reference matches the src=" opening:
the six header characters mismatch and the body region is covered by the
quote-structure argument, since the body ends in the token's last digit
rather than the '=' that closes the literal's stem. -/
theorem no_src_match (A : List Char) (sufs : List (List Char))
    (hAq : ∀ c ∈ A, c ≠ '"') (d : Char) (hd : A.getLast? = some d)
    (hdig : d.isDigit = true) :
    ∀ t, t <:+ ('h' :: 'r' :: 'e' :: 'f' :: '=' :: '"' :: (A ++ ['"'])) →
      matchRef litSrc sufs t = none := by
  have hlast : A.getLast? ≠ (['s', 'r', 'c', '='] : List Char).getLast? := by
    rw [hd]
    intro hcon
    have hde : d = '=' := by
      have hg : (['s', 'r', 'c', '='] : List Char).getLast? = some '=' := by decide
      rw [hg] at hcon
      exact Option.some.inj hcon
    rw [hde] at hdig
    exact absurd hdig (by decide)
  have hcore : ∀ t, t <:+ A ++ ['"'] → startsWith litSrc t = false := fun t ht =>
    startsWith_quote_lit_false (['s', 'r', 'c', '='] : List Char) A (by decide) hAq hlast t ht
  intro t ht
  rcases List.suffix_cons_iff.mp ht with rfl | ht
  · exact matchRef_none_of_not_startsWith _ _ _ (startsWith_cons_false _ _ _ _ (by decide))
  rcases List.suffix_cons_iff.mp ht with rfl | ht
  · exact matchRef_none_of_not_startsWith _ _ _ (startsWith_cons_false _ _ _ _ (by decide))
  rcases List.suffix_cons_iff.mp ht with rfl | ht
  · exact matchRef_none_of_not_startsWith _ _ _ (startsWith_cons_false _ _ _ _ (by decide))
  rcases List.suffix_cons_iff.mp ht with rfl | ht
  · exact matchRef_none_of_not_startsWith _ _ _ (startsWith_cons_false _ _ _ _ (by decide))
  rcases List.suffix_cons_iff.mp ht with rfl | ht
  · exact matchRef_none_of_not_startsWith _ _ _ (startsWith_cons_false _ _ _ _ (by decide))
  rcases List.suffix_cons_iff.mp ht with rfl | ht
  · exact matchRef_none_of_not_startsWith _ _ _ (startsWith_cons_false _ _ _ _ (by decide))
  · exact matchRef_none_of_not_startsWith _ _ _ (hcore t ht)

/-- No suffix of an already-tokenized reference matches the href=" CSS
pattern: at the header itself the run now ends in a digit instead of .css,
and every later position either mismatches the literal or is covered by
the quote-structure argument. -/
theorem no_href_match (A : List Char)
    (hAq : ∀ c ∈ A, c ≠ '"') (d : Char) (hd : A.getLast? = some d)
    (hdig : d.isDigit = true) :
    ∀ t, t <:+ ('h' :: 'r' :: 'e' :: 'f' :: '=' :: '"' :: (A ++ ['"'])) →
      matchRef litHref [sufCss] t = none := by
  have hlast : A.getLast? ≠ (['h', 'r', 'e', 'f', '='] : List Char).getLast? := by
    rw [hd]
    intro hcon
    have hde : d = '=' := by
      have hg : (['h', 'r', 'e', 'f', '='] : List Char).getLast? = some '=' := by decide
      rw [hg] at hcon
      exact Option.some.inj hcon
    rw [hde] at hdig
    exact absurd hdig (by decide)
  have hcore : ∀ t, t <:+ A ++ ['"'] → startsWith litHref t = false := fun t ht =>
    startsWith_quote_lit_false (['h', 'r', 'e', 'f', '='] : List Char) A (by decide) hAq hlast t ht
  have hds : ('s' == d) = false := by
    rw [beq_eq_false_iff_ne]
    intro h
    rw [← h] at hdig
    exact absurd hdig (by decide)
  have hpos : matchRef litHref [sufCss] (litHref ++ (A ++ '"' :: [])) = none := by
    rw [matchRef_pos _ _ _ _ hAq]
    have hend : endsWith A sufCss = false :=
      endsWith_false_of_getLast_ne A sufCss d 's' hd (by decide) hds
    simp [hend]
  intro t ht
  rcases List.suffix_cons_iff.mp ht with rfl | ht
  · exact hpos
  rcases List.suffix_cons_iff.mp ht with rfl | ht
  · exact matchRef_none_of_not_startsWith _ _ _ (startsWith_cons_false _ _ _ _ (by decide))
  rcases List.suffix_cons_iff.mp ht with rfl | ht
  · exact matchRef_none_of_not_startsWith _ _ _ (startsWith_cons_false _ _ _ _ (by decide))
  rcases List.suffix_cons_iff.mp ht with rfl | ht
  · exact matchRef_none_of_not_startsWith _ _ _ (startsWith_cons_false _ _ _ _ (by decide))
  rcases List.suffix_cons_iff.mp ht with rfl | ht
  · exact matchRef_none_of_not_startsWith _ _ _ (startsWith_cons_false _ _ _ _ (by decide))
  rcases List.suffix_cons_iff.mp ht with rfl | ht
  · exact matchRef_none_of_not_startsWith _ _ _ (startsWith_cons_false _ _ _ _ (by decide))
  · exact matchRef_none_of_not_startsWith _ _ _ (hcore t ht)

/-- A pass whose single match sits at the head of the input and consumes
everything rewrites the input in one step. -/
theorem subRef_head_match (lit : List Char) (sufs : List (List Char)) (ts : List Char)
    (s r : List Char) (hs : s ≠ []) (h : matchRef lit sufs s = some (r, [])) :
    subRef lit sufs ts s = lit ++ r ++ tokenPart ts ++ ['"'] := by
  unfold subRef
  cases s with
  | nil => exact absurd rfl hs
  | cons c cs =>
    rw [List.length_cons, subRefFuel_match _ _ _ _ _ _ _ _ h, subRefFuel_nil]

/-- splitQuote passes a fully quote-free input through unchanged. -/
theorem splitQuote_no_quote (b : List Char) (hb : ∀ c ∈ b, c ≠ '"') :
    splitQuote b = (b, []) := by
  induction b with
  | nil => rfl
  | cons c cs ih =>
    have hc : (c == '"') = false := by
      have := hb c (List.mem_cons_self c cs)
      simp [this]
    simp only [splitQuote, hc, Bool.false_eq_true, if_false]
    rw [ih fun x hx => hb x (List.mem_cons_of_mem c hx)]

/-- The two splitQuote components rebuild the input. -/
theorem splitQuote_join (s : List Char) : (splitQuote s).1 ++ (splitQuote s).2 = s := by
  induction s with
  | nil => rfl
  | cons c cs ih =>
    by_cases hc : c = '"'
    · simp [splitQuote, hc]
    · have hcb : (c == '"') = false := by simp [hc]
      simp only [splitQuote, hcb, Bool.false_eq_true, if_false]
      simp [List.cons_append, ih]

/-- The first splitQuote component is quote-free. -/
theorem splitQuote_fst_no_quote (s : List Char) : ∀ c ∈ (splitQuote s).1, c ≠ '"' := by
  induction s with
  | nil => intro c hc; exact absurd hc (by simp [splitQuote])
  | cons a as ih =>
    by_cases ha : a = '"'
    · intro c hc
      simp [splitQuote, ha] at hc
    · have hab : (a == '"') = false := by simp [ha]
      intro c hc
      simp only [splitQuote, hab, Bool.false_eq_true, if_false] at hc
      rcases List.mem_cons.mp hc with rfl | hc2
      · exact ha
      · exact ih c hc2

/-- The second splitQuote component is empty or starts with the quote. -/
theorem splitQuote_snd_cases (s : List Char) :
    (splitQuote s).2 = [] ∨ ∃ r, (splitQuote s).2 = '"' :: r := by
  induction s with
  | nil => exact Or.inl rfl
  | cons a as ih =>
    by_cases ha : a = '"'
    · exact Or.inr ⟨as, by simp [splitQuote, ha]⟩
    · have hab : (a == '"') = false := by simp [ha]
      simpa only [splitQuote, hab, Bool.false_eq_true, if_false] using ih

/-- matchRef fails when nothing after the literal carries a closing
quote. -/
theorem matchRef_no_quote (lit A : List Char) (sufs : List (List Char))
    (hA : ∀ c ∈ A, c ≠ '"') : matchRef lit sufs (lit ++ A) = none := by
  unfold matchRef
  rw [startsWith_append]
  simp only [if_pos rfl, List.drop_left, splitQuote_no_quote A hA]
  rw [if_pos trivial]

/-- The remainder a match returns is strictly shorter than the input. -/
theorem matchRef_rest_length (lit : List Char) (sufs : List (List Char))
    (s r rest : List Char) (h : matchRef lit sufs s = some (r, rest)) :
    rest.length < s.length := by
  by_cases hs : startsWith lit s = true
  · obtain ⟨u, hu⟩ := (startsWith_iff _ _).mp hs
    have hjoin := splitQuote_join u
    have hfree := splitQuote_fst_no_quote u
    rcases splitQuote_snd_cases u with hq | ⟨rr, hq⟩
    · rw [hq, List.append_nil] at hjoin
      rw [hjoin] at hfree
      have hnone := matchRef_no_quote lit u sufs hfree
      rw [← hu, hnone] at h
      exact absurd h (by simp)
    · rw [hq] at hjoin
      have hpos := matchRef_pos lit sufs (splitQuote u).1 rr hfree
      rw [hjoin, hu, h] at hpos
      by_cases hx : (sufs.any fun suf =>
          endsWith (splitQuote u).1 suf
            && decide (suf.length < (splitQuote u).1.length)) = true
      · rw [if_pos hx] at hpos
        injection hpos with hp
        rw [Prod.mk.injEq] at hp
        rw [hp.2, ← hu, ← hjoin]
        simp [List.length_append]
        omega
      · rw [if_neg (by simp [hx])] at hpos
        exact absurd hpos (by simp)
  · rw [matchRef_none_of_not_startsWith lit sufs s (by simpa using hs)] at h
    exact absurd h (by simp)

/-- Any fuel at least the input length scans like the full pass. -/
theorem subRefFuel_norm (lit : List Char) (sufs : List (List Char)) (ts : List Char)
    (n : Nat) :
    ∀ s : List Char, s.length ≤ n → subRefFuel lit sufs ts n s = subRef lit sufs ts s := by
  induction n using Nat.strong_induction_on with
  | _ n ih =>
    intro s hn
    cases s with
    | nil => rw [subRefFuel_nil]; rfl
    | cons c cs =>
      cases n with
      | zero => simp at hn
      | succ m =>
        have hn2 : cs.length ≤ m := by
          rw [List.length_cons] at hn
          omega
        cases hm : matchRef lit sufs (c :: cs) with
        | none =>
          rw [subRefFuel_skip _ _ _ _ _ _ hm]
          rw [ih m (Nat.lt_succ_self m) cs hn2]
          show _ = subRefFuel lit sufs ts (c :: cs).length (c :: cs)
          rw [List.length_cons, subRefFuel_skip _ _ _ _ _ _ hm]
          rfl
        | some pr =>
          obtain ⟨r, rest⟩ := pr
          have hlt := matchRef_rest_length lit sufs _ _ _ hm
          rw [List.length_cons] at hlt
          rw [subRefFuel_match _ _ _ _ _ _ _ _ hm]
          rw [ih m (Nat.lt_succ_self m) rest (by omega)]
          show _ = subRefFuel lit sufs ts (c :: cs).length (c :: cs)
          rw [List.length_cons, subRefFuel_match _ _ _ _ _ _ _ _ hm]
          rw [ih cs.length (by omega) rest (by omega)]

/-- One match step of a full pass, resuming with a fresh full pass on the
remainder. -/
theorem subRef_match_step (lit : List Char) (sufs : List (List Char)) (ts : List Char)
    (s r rest : List Char) (hs : s ≠ [])
    (h : matchRef lit sufs s = some (r, rest)) :
    subRef lit sufs ts s = lit ++ r ++ tokenPart ts ++ '"' :: subRef lit sufs ts rest := by
  cases s with
  | nil => exact absurd rfl hs
  | cons c cs =>
    have hlt := matchRef_rest_length lit sufs _ _ _ h
    rw [List.length_cons] at hlt
    have h1 : subRef lit sufs ts (c :: cs)
        = subRefFuel lit sufs ts (cs.length + 1) (c :: cs) := rfl
    rw [h1, subRefFuel_match _ _ _ _ _ _ _ _ h,
        subRefFuel_norm lit sufs ts cs.length rest (by omega)]

/-- A pass copies verbatim any leading block none of whose nonempty
suffixes opens a match against the rest. -/
theorem subRef_copy (lit : List Char) (sufs : List (List Char)) (ts : List Char) :
    ∀ w T : List Char,
      (∀ v, v <:+ w → v ≠ [] → matchRef lit sufs (v ++ T) = none) →
      subRef lit sufs ts (w ++ T) = w ++ subRef lit sufs ts T := by
  intro w
  induction w with
  | nil => intro T _; simp
  | cons c w2 ih =>
    intro T hv
    have hm : matchRef lit sufs (c :: (w2 ++ T)) = none := by
      have := hv (c :: w2) (List.suffix_refl _) (by simp)
      simpa using this
    have h1 : subRef lit sufs ts ((c :: w2) ++ T)
        = subRefFuel lit sufs ts ((w2 ++ T).length + 1) (c :: (w2 ++ T)) := rfl
    rw [h1, subRefFuel_skip _ _ _ _ _ _ hm]
    rw [show subRefFuel lit sufs ts (w2 ++ T).length (w2 ++ T)
        = subRef lit sufs ts (w2 ++ T) from rfl]
    rw [ih T (fun v hvw hne => hv v (hvw.trans (List.suffix_cons c w2)) hne)]
    rfl


/-- A quote-terminated literal never opens inside a quote-free string. -/
theorem startsWith_false_of_no_quote (stem u : List Char) (hu : ∀ c ∈ u, c ≠ '"') :
    startsWith (stem ++ ['"']) u = false := by
  rw [Bool.eq_false_iff]
  intro hx
  have hpre := (startsWith_iff _ _).mp hx
  have hq : '"' ∈ u := hpre.subset (by simp)
  exact hu '"' hq rfl

/-- A quote-terminated literal opening at a quote-free segment boundary
forces the segment to equal the literal's stem. -/
theorem startsWith_seg_eq_stem (stem w R : List Char)
    (hstemq : ∀ c ∈ stem, c ≠ '"') (hwq : ∀ c ∈ w, c ≠ '"')
    (hx : startsWith (stem ++ ['"']) (w ++ '"' :: R) = true) : w = stem := by
  obtain ⟨u, hu⟩ := (startsWith_iff _ _).mp hx
  rw [List.append_assoc, List.singleton_append] at hu
  have h1 := splitQuote_append_quote stem u hstemq
  rw [hu, splitQuote_append_quote w R hwq] at h1
  rw [Prod.mk.injEq] at h1
  exact h1.1

/-- At a segment ending differently from the stem, the quote-terminated
literal does not open. -/
theorem startsWith_seg_ne_false (stem w R : List Char)
    (hstemq : ∀ c ∈ stem, c ≠ '"') (hwq : ∀ c ∈ w, c ≠ '"') (hne : w ≠ stem) :
    startsWith (stem ++ ['"']) (w ++ '"' :: R) = false := by
  rw [Bool.eq_false_iff]
  intro hx
  exact hne (startsWith_seg_eq_stem stem w R hstemq hwq hx)

/-- matchRef at an exact stem boundary with a further closed segment
reduces to the extension test on that segment. -/
theorem matchRef_seg (stem b R : List Char) (sufs : List (List Char))
    (hb : ∀ c ∈ b, c ≠ '"') :
    matchRef (stem ++ ['"']) sufs (stem ++ '"' :: (b ++ '"' :: R))
      = if extOk sufs b then some (b, R) else none := by
  have hsh : stem ++ '"' :: (b ++ '"' :: R) = (stem ++ ['"']) ++ (b ++ '"' :: R) := by
    simp
  rw [hsh, matchRef_pos (stem ++ ['"']) sufs b R hb]
  rfl

/-- matchRef at an exact stem boundary whose successor segment has no
closing quote fails. -/
theorem matchRef_seg_last (stem b : List Char) (sufs : List (List Char))
    (hb : ∀ c ∈ b, c ≠ '"') :
    matchRef (stem ++ ['"']) sufs (stem ++ '"' :: b) = none := by
  have hsh : stem ++ '"' :: b = (stem ++ ['"']) ++ b := by simp
  rw [hsh]
  exact matchRef_no_quote _ _ _ hb

/-- Prepending a nonempty block changes a list. -/
theorem append_left_ne_nil_ne (v stem : List Char) (hv : v ≠ []) : v ++ stem ≠ stem := by
  intro h
  have hlen := congrArg List.length h
  rw [List.length_append] at hlen
  have hv0 : v.length = 0 := by omega
  exact hv (List.length_eq_zero.mp hv0)

/-- The boolean suffix test agrees with the suffix relation. -/
theorem endsWith_iff_suffix (l suf : List Char) : endsWith l suf = true ↔ suf <:+ l := by
  unfold endsWith
  rw [startsWith_iff]
  exact List.reverse_prefix

/-- A quote-free input is fixed by any pass with a quote-terminated
literal. -/
theorem subRef_quote_free_id (stem : List Char) (sufs : List (List Char)) (ts : List Char)
    (a : List Char) (ha : ∀ c ∈ a, c ≠ '"') :
    subRef (stem ++ ['"']) sufs ts a = a :=
  subRef_id_of_none _ _ _ _ (fun t ht =>
    matchRef_none_of_not_startsWith _ _ _
      (startsWith_false_of_no_quote stem t (fun c hc => ha c (ht.subset hc))))

/-- joinSegs over a nonempty tail emits the head, a quote, and the rest. -/
theorem joinSegs_cons (a : List Char) (L : List (List Char)) (hL : L ≠ []) :
    joinSegs (a :: L) = a ++ '"' :: joinSegs L := by
  cases L with
  | nil => exact absurd rfl hL
  | cons b rest => rfl

/-- Unfolding equation of segMap on two leading segments. -/
theorem segMap_cons_eq (stem : List Char) (sufs : List (List Char)) (ts : List Char)
    (a b : List Char) (rest : List (List Char)) :
    segMap stem sufs ts (a :: b :: rest)
      = if rest ≠ [] ∧ endsWith a stem = true ∧ extOk sufs b = true then
          a :: (b ++ tokenPart ts) :: segMap stem sufs ts rest
        else a :: segMap stem sufs ts (b :: rest) := rfl

/-- segMap never rewrites the first segment. -/
theorem segMap_head_cons (stem : List Char) (sufs : List (List Char)) (ts : List Char)
    (b : List Char) (rest : List (List Char)) :
    ∃ L, segMap stem sufs ts (b :: rest) = b :: L := by
  cases rest with
  | nil => exact ⟨[], rfl⟩
  | cons c r =>
    rw [segMap_cons_eq]
    by_cases hcond : r ≠ [] ∧ endsWith b stem = true ∧ extOk sufs c = true
    · rw [if_pos hcond]
      exact ⟨_, rfl⟩
    · rw [if_neg hcond]
      exact ⟨_, rfl⟩

/-- Cleanness is preserved by dropping the leading segment. -/
theorem segClean_tail (stem : List Char) (sufs : List (List Char)) (x : List Char)
    (L : List (List Char)) (h : segClean stem sufs (x :: L)) : segClean stem sufs L := by
  rcases L with _ | ⟨a, _ | ⟨b, rest⟩⟩
  · trivial
  · trivial
  · exact h.2

/-- A segment not ending in the stem extends any clean list cleanly. -/
theorem segClean_cons_of_ends_false (stem : List Char) (sufs : List (List Char))
    (x : List Char) (L : List (List Char)) (hx : endsWith x stem = false)
    (hL : segClean stem sufs L) : segClean stem sufs (x :: L) := by
  rcases L with _ | ⟨a, _ | ⟨b, rest⟩⟩
  · trivial
  · trivial
  · exact ⟨fun hc => absurd hc.1 (by simp [hx]), hL⟩

/-- Appending a token moves the last character to the token's end. -/
theorem getLast_append_token (u ts : List Char) (hts : ts ≠ []) :
    (u ++ tokenPart ts).getLast? = ts.getLast? := by
  rw [List.getLast?_append_of_ne_nil _ (by simp [tokenPart])]
  show (tokenPart ts).getLast? = ts.getLast?
  have htok : tokenPart ts = ['?', 'v', '='] ++ ts := rfl
  rw [htok, List.getLast?_append_of_ne_nil _ hts]

/-- A tokenized segment cannot end in a stem closing with '='. -/
theorem endsWith_token_stem_false (u ts stem : List Char) (hts : ts ≠ [])
    (htsd : ∀ c ∈ ts, c.isDigit = true) (hstem : stem.getLast? = some '=') :
    endsWith (u ++ tokenPart ts) stem = false := by
  have hl : (u ++ tokenPart ts).getLast? = some (ts.getLast hts) := by
    rw [getLast_append_token u ts hts]
    exact List.getLast?_eq_getLast ts hts
  have hd := htsd _ (List.getLast_mem hts)
  have hne : ('=' == ts.getLast hts) = false := by
    rw [beq_eq_false_iff_ne]
    intro he
    rw [← he] at hd
    exact absurd hd (by decide)
  exact endsWith_false_of_getLast_ne _ _ _ _ hl hstem hne

/-- A tokenized segment fails every extension test whose extensions end
in a non-digit. -/
theorem extOk_token_false (u ts : List Char) (sufs : List (List Char)) (hts : ts ≠ [])
    (htsd : ∀ c ∈ ts, c.isDigit = true)
    (hsufs : ∀ suf ∈ sufs, ∃ c, suf.getLast? = some c ∧ c.isDigit = false) :
    extOk sufs (u ++ tokenPart ts) = false := by
  unfold extOk
  rw [List.any_eq_false]
  intro suf hsuf
  obtain ⟨c, hc, hcd⟩ := hsufs suf hsuf
  have hl : (u ++ tokenPart ts).getLast? = some (ts.getLast hts) := by
    rw [getLast_append_token u ts hts]
    exact List.getLast?_eq_getLast ts hts
  have hd := htsd _ (List.getLast_mem hts)
  have hne : (c == ts.getLast hts) = false := by
    rw [beq_eq_false_iff_ne]
    intro he
    rw [← he] at hd
    rw [hcd] at hd
    exact Bool.false_ne_true hd
  have hend : endsWith (u ++ tokenPart ts) suf = false :=
    endsWith_false_of_getLast_ne _ _ _ _ hl hc hne
  simp [hend]

/-- segMap with a quote-free token preserves quote-freeness of every
segment. -/
theorem segMap_quote_free (stem : List Char) (sufs : List (List Char)) (ts : List Char)
    (hts : ∀ c ∈ ts, c ≠ '"') :
    ∀ (N : Nat) (segs : List (List Char)), segs.length ≤ N →
      (∀ x ∈ segs, ∀ c ∈ x, c ≠ '"') →
      ∀ x ∈ segMap stem sufs ts segs, ∀ c ∈ x, c ≠ '"' := by
  intro N
  induction N with
  | zero =>
    intro segs hlen hq
    have h0 : segs = [] := List.length_eq_zero.mp (Nat.le_zero.mp hlen)
    subst h0
    intro x hx
    exact absurd hx (by simp [segMap])
  | succ N ih =>
    intro segs hlen hq
    rcases segs with _ | ⟨a, _ | ⟨b, rest⟩⟩
    · intro x hx
      exact absurd hx (by simp [segMap])
    · intro x hx c hc
      rw [show segMap stem sufs ts [a] = [a] from rfl] at hx
      have hxa := List.mem_singleton.mp hx
      subst hxa
      exact hq x (by simp) c hc
    · rw [segMap_cons_eq]
      by_cases hcond : rest ≠ [] ∧ endsWith a stem = true ∧ extOk sufs b = true
      · rw [if_pos hcond]
        intro x hx c hc
        rcases List.mem_cons.mp hx with rfl | hx2
        · exact hq x (by simp) c hc
        rcases List.mem_cons.mp hx2 with rfl | hx3
        · rcases List.mem_append.mp hc with hcb | hct
          · exact hq b (by simp) c hcb
          · have htok : tokenPart ts = ['?', 'v', '='] ++ ts := rfl
            rw [htok] at hct
            rcases List.mem_append.mp hct with hc3 | hc4
            · have hqvd : ∀ y ∈ (['?', 'v', '='] : List Char), y ≠ '"' := by decide
              exact hqvd c hc3
            · exact hts c hc4
        · have hlr : rest.length ≤ N := by
            simp [List.length_cons] at hlen
            omega
          exact ih rest hlr
            (fun y hy => hq y (List.mem_cons_of_mem a (List.mem_cons_of_mem b hy)))
            x hx3 c hc
      · rw [if_neg hcond]
        intro x hx
        rcases List.mem_cons.mp hx with rfl | hx2
        · exact hq x (by simp)
        · have hlr : (b :: rest).length ≤ N := by
            simp [List.length_cons] at hlen ⊢
            omega
          exact ih (b :: rest) hlr (fun y hy => hq y (List.mem_cons_of_mem a hy)) x hx2

/-- On a clean segment list segMap is the identity. -/
theorem segMap_id_of_clean (stem : List Char) (sufs : List (List Char)) (ts : List Char) :
    ∀ (N : Nat) (segs : List (List Char)), segs.length ≤ N →
      segClean stem sufs segs → segMap stem sufs ts segs = segs := by
  intro N
  induction N with
  | zero =>
    intro segs hlen _
    have h0 : segs = [] := List.length_eq_zero.mp (Nat.le_zero.mp hlen)
    subst h0
    rfl
  | succ N ih =>
    intro segs hlen hcl
    rcases segs with _ | ⟨a, _ | ⟨b, rest⟩⟩
    · rfl
    · rfl
    · rw [segMap_cons_eq]
      rcases rest with _ | ⟨c, r⟩
      · rw [if_neg (by simp)]
        rfl
      · have hnc : ¬(endsWith a stem = true ∧ extOk sufs b = true) := hcl.1
        rw [if_neg (fun hc => hnc hc.2)]
        rw [ih (b :: c :: r) (by simp [List.length_cons] at hlen ⊢; omega) hcl.2]

/-- The output of segMap is clean for its own pass: every rewritten
segment ends in token digits, so it passes no extension test, and a
surviving interior occurrence would have been rewritten. -/
theorem segMap_self_clean (stem : List Char) (sufs : List (List Char)) (ts : List Char)
    (hts : ts ≠ []) (htsd : ∀ c ∈ ts, c.isDigit = true)
    (hstem : stem.getLast? = some '=')
    (hsufs : ∀ suf ∈ sufs, ∃ c, suf.getLast? = some c ∧ c.isDigit = false) :
    ∀ (N : Nat) (segs : List (List Char)), segs.length ≤ N →
      segClean stem sufs (segMap stem sufs ts segs) := by
  intro N
  induction N with
  | zero =>
    intro segs hlen
    have h0 : segs = [] := List.length_eq_zero.mp (Nat.le_zero.mp hlen)
    subst h0
    trivial
  | succ N ih =>
    intro segs hlen
    rcases segs with _ | ⟨a, _ | ⟨b, rest⟩⟩
    · trivial
    · trivial
    · rw [segMap_cons_eq]
      by_cases hcond : rest ≠ [] ∧ endsWith a stem = true ∧ extOk sufs b = true
      · rw [if_pos hcond]
        obtain ⟨r0, rest2, hrest⟩ : ∃ r0 rest2, rest = r0 :: rest2 := by
          cases rest with
          | nil => exact absurd rfl hcond.1
          | cons r0 rest2 => exact ⟨r0, rest2, rfl⟩
        subst hrest
        obtain ⟨L, hL⟩ := segMap_head_cons stem sufs ts r0 rest2
        rw [hL]
        refine ⟨?_, ?_⟩
        · intro hc
          have hf := extOk_token_false b ts sufs hts htsd hsufs
          rw [hf] at hc
          exact Bool.false_ne_true hc.2
        · have hclean : segClean stem sufs (r0 :: L) := by
            rw [← hL]
            exact ih (r0 :: rest2) (by simp [List.length_cons] at hlen ⊢; omega)
          exact segClean_cons_of_ends_false stem sufs _ _
            (endsWith_token_stem_false b ts stem hts htsd hstem) hclean
      · rw [if_neg hcond]
        obtain ⟨L, hL⟩ := segMap_head_cons stem sufs ts b rest
        rw [hL]
        have hcl2 : segClean stem sufs (b :: L) := by
          rw [← hL]
          exact ih (b :: rest) (by simp [List.length_cons] at hlen ⊢; omega)
        cases L with
        | nil => trivial
        | cons l0 L2 =>
          refine ⟨?_, hcl2⟩
          intro hc
          have hrne : rest ≠ [] := by
            intro h0
            subst h0
            rw [show segMap stem sufs ts [b] = [b] from rfl] at hL
            simp at hL
          exact hcond ⟨hrne, hc.1, hc.2⟩

/-- segMap for one pass preserves cleanness for another pass whose stem
closes with '=' and whose extensions end in a non-digit. -/
theorem segMap_preserves_clean (stemj stemk : List Char)
    (sufsj sufsk : List (List Char)) (ts : List Char) (hts : ts ≠ [])
    (htsd : ∀ c ∈ ts, c.isDigit = true) (hstemj : stemj.getLast? = some '=')
    (hsufsj : ∀ suf ∈ sufsj, ∃ c, suf.getLast? = some c ∧ c.isDigit = false) :
    ∀ (N : Nat) (segs : List (List Char)), segs.length ≤ N →
      segClean stemj sufsj segs →
      segClean stemj sufsj (segMap stemk sufsk ts segs) := by
  intro N
  induction N with
  | zero =>
    intro segs hlen _
    have h0 : segs = [] := List.length_eq_zero.mp (Nat.le_zero.mp hlen)
    subst h0
    trivial
  | succ N ih =>
    intro segs hlen hcl
    rcases segs with _ | ⟨a, _ | ⟨b, rest⟩⟩
    · trivial
    · trivial
    · rw [segMap_cons_eq]
      by_cases hcond : rest ≠ [] ∧ endsWith a stemk = true ∧ extOk sufsk b = true
      · rw [if_pos hcond]
        obtain ⟨r0, rest2, hrest⟩ : ∃ r0 rest2, rest = r0 :: rest2 := by
          cases rest with
          | nil => exact absurd rfl hcond.1
          | cons r0 rest2 => exact ⟨r0, rest2, rfl⟩
        subst hrest
        obtain ⟨L, hL⟩ := segMap_head_cons stemk sufsk ts r0 rest2
        rw [hL]
        refine ⟨?_, ?_⟩
        · intro hc
          have hf := extOk_token_false b ts sufsj hts htsd hsufsj
          rw [hf] at hc
          exact Bool.false_ne_true hc.2
        · have hcl3 : segClean stemj sufsj (r0 :: L) := by
            rw [← hL]
            exact ih (r0 :: rest2) (by simp [List.length_cons] at hlen ⊢; omega)
              (segClean_tail _ _ _ _ (segClean_tail _ _ _ _ hcl))
          exact segClean_cons_of_ends_false stemj sufsj _ _
            (endsWith_token_stem_false b ts stemj hts htsd hstemj) hcl3
      · rw [if_neg hcond]
        obtain ⟨L, hL⟩ := segMap_head_cons stemk sufsk ts b rest
        rw [hL]
        have hcl2 : segClean stemj sufsj (b :: L) := by
          rw [← hL]
          exact ih (b :: rest) (by simp [List.length_cons] at hlen ⊢; omega)
            (segClean_tail _ _ _ _ hcl)
        cases L with
        | nil => trivial
        | cons l0 L2 =>
          refine ⟨?_, hcl2⟩
          intro hc
          have hrne : rest ≠ [] := by
            intro h0
            subst h0
            rw [show segMap stemk sufsk ts [b] = [b] from rfl] at hL
            simp at hL
          obtain ⟨r0, rest2, hrest⟩ : ∃ r0 rest2, rest = r0 :: rest2 := by
            cases rest with
            | nil => exact absurd rfl hrne
            | cons r0 rest2 => exact ⟨r0, rest2, rfl⟩
          rw [hrest] at hcl
          exact hcl.1 hc

/-- A full pass over a document given by quote-free segments is exactly
segMap: matches occur only at segment boundaries whose segment equals
the stem, the rewrite appends the token to the successor segment, and
all other characters are copied. -/
theorem subRef_joinSegs (stem : List Char) (sufs : List (List Char)) (ts : List Char)
    (hst : stem ≠ []) (hstq : ∀ c ∈ stem, c ≠ '"') :
    ∀ (N : Nat) (segs : List (List Char)), segs.length ≤ N →
      (∀ x ∈ segs, ∀ c ∈ x, c ≠ '"') →
      subRef (stem ++ ['"']) sufs ts (joinSegs segs)
        = joinSegs (segMap stem sufs ts segs) := by
  intro N
  induction N with
  | zero =>
    intro segs hlen _
    have h0 : segs = [] := List.length_eq_zero.mp (Nat.le_zero.mp hlen)
    subst h0
    rfl
  | succ N ih =>
    intro segs hlen hq
    rcases segs with _ | ⟨a, _ | ⟨b, rest⟩⟩
    · rfl
    · rw [show segMap stem sufs ts [a] = [a] from rfl]
      exact subRef_quote_free_id stem sufs ts a (hq a (by simp))
    · have hqa : ∀ c ∈ a, c ≠ '"' := hq a (List.mem_cons_self a _)
      have hqb : ∀ c ∈ b, c ≠ '"' :=
        hq b (List.mem_cons_of_mem a (List.mem_cons_self b _))
      rw [joinSegs_cons a (b :: rest) (by simp), segMap_cons_eq]
      by_cases hcond : rest ≠ [] ∧ endsWith a stem = true ∧ extOk sufs b = true
      · rw [if_pos hcond]
        obtain ⟨hrne, hend, hext⟩ := hcond
        obtain ⟨r0, rest2, hrest⟩ : ∃ r0 rest2, rest = r0 :: rest2 := by
          cases rest with
          | nil => exact absurd rfl hrne
          | cons r0 rest2 => exact ⟨r0, rest2, rfl⟩
        subst hrest
        rw [joinSegs_cons b (r0 :: rest2) (by simp)]
        obtain ⟨w, hw⟩ := (endsWith_iff_suffix a stem).mp hend
        rw [← hw]
        have hqw : ∀ c ∈ w, c ≠ '"' := by
          intro c hc
          apply hqa c
          rw [← hw]
          exact List.mem_append.mpr (Or.inl hc)
        have hcopy : ∀ v, v <:+ w → v ≠ [] →
            matchRef (stem ++ ['"']) sufs
              (v ++ (stem ++ '"' :: (b ++ '"' :: joinSegs (r0 :: rest2)))) = none := by
          intro v hv hvne
          rw [← List.append_assoc v stem ('"' :: (b ++ '"' :: joinSegs (r0 :: rest2)))]
          exact matchRef_none_of_not_startsWith _ _ _
            (startsWith_seg_ne_false stem (v ++ stem)
              (b ++ '"' :: joinSegs (r0 :: rest2)) hstq
              (fun c hc => (List.mem_append.mp hc).elim
                (fun h1 => hqw c (hv.subset h1)) (fun h2 => hstq c h2))
              (append_left_ne_nil_ne v stem hvne))
        rw [List.append_assoc w stem ('"' :: (b ++ '"' :: joinSegs (r0 :: rest2)))]
        rw [subRef_copy (stem ++ ['"']) sufs ts w
          (stem ++ '"' :: (b ++ '"' :: joinSegs (r0 :: rest2))) hcopy]
        have hmm2 : matchRef (stem ++ ['"']) sufs
            (stem ++ '"' :: (b ++ '"' :: joinSegs (r0 :: rest2)))
              = some (b, joinSegs (r0 :: rest2)) := by
          rw [matchRef_seg stem b (joinSegs (r0 :: rest2)) sufs hqb]
          rw [if_pos hext]
        rw [subRef_match_step (stem ++ ['"']) sufs ts
          (stem ++ '"' :: (b ++ '"' :: joinSegs (r0 :: rest2))) b
          (joinSegs (r0 :: rest2)) (by simp) hmm2]
        rw [ih (r0 :: rest2) (by simp [List.length_cons] at hlen ⊢; omega)
          (fun y hy => hq y (List.mem_cons_of_mem a (List.mem_cons_of_mem b hy)))]
        obtain ⟨L2, hL2⟩ := segMap_head_cons stem sufs ts r0 rest2
        rw [joinSegs_cons (w ++ stem)
          ((b ++ tokenPart ts) :: segMap stem sufs ts (r0 :: rest2)) (by simp)]
        rw [joinSegs_cons (b ++ tokenPart ts) (segMap stem sufs ts (r0 :: rest2))
          (by rw [hL2]; simp)]
        simp [List.append_assoc]
      · rw [if_neg hcond]
        obtain ⟨L, hL⟩ := segMap_head_cons stem sufs ts b rest
        rw [joinSegs_cons a (segMap stem sufs ts (b :: rest)) (by rw [hL]; simp)]
        have hcopy2 : ∀ v, v <:+ a ++ ['"'] → v ≠ [] →
            matchRef (stem ++ ['"']) sufs (v ++ joinSegs (b :: rest)) = none := by
          intro v hv hvne
          rcases suffix_concat_decomp v a '"' hv with rfl | ⟨B, hB, rfl⟩
          · exact absurd rfl hvne
          · have hqB : ∀ c ∈ B, c ≠ '"' := fun c hc => hqa c (hB.subset hc)
            have hshape : (B ++ ['"']) ++ joinSegs (b :: rest)
                = B ++ '"' :: joinSegs (b :: rest) := by simp
            rw [hshape]
            by_cases hBs : B = stem
            · rw [hBs]
              cases rest with
              | nil => exact matchRef_seg_last stem b sufs hqb
              | cons r1 rest1 =>
                rw [joinSegs_cons b (r1 :: rest1) (by simp)]
                rw [matchRef_seg stem b (joinSegs (r1 :: rest1)) sufs hqb]
                have hext2 : extOk sufs b = false := by
                  cases hxe : extOk sufs b with
                  | false => rfl
                  | true =>
                    have hendsa : endsWith a stem = true := by
                      rw [← hBs]
                      exact (endsWith_iff_suffix a B).mpr hB
                    exact absurd ⟨by simp, hendsa, hxe⟩ hcond
                rw [if_neg (by simp [hext2])]
            · exact matchRef_none_of_not_startsWith _ _ _
                (startsWith_seg_ne_false stem B (joinSegs (b :: rest)) hstq hqB hBs)
        have hshape2 : a ++ '"' :: joinSegs (b :: rest)
            = (a ++ ['"']) ++ joinSegs (b :: rest) := by simp
        rw [hshape2, subRef_copy (stem ++ ['"']) sufs ts (a ++ ['"'])
          (joinSegs (b :: rest)) hcopy2]
        rw [ih (b :: rest) (by simp [List.length_cons] at hlen ⊢; omega)
          (fun y hy => hq y (List.mem_cons_of_mem a hy))]
        simp [List.append_assoc]

/-- Every document decomposes into nonempty quote-free segments joined
by its double quotes. -/
theorem exists_segs (s : List Char) :
    ∃ segs : List (List Char), segs ≠ [] ∧ (∀ x ∈ segs, ∀ c ∈ x, c ≠ '"') ∧
      joinSegs segs = s := by
  induction s with
  | nil => exact ⟨[[]], by simp, by simp, rfl⟩
  | cons c cs ih =>
    obtain ⟨segs, hne, hq, hj⟩ := ih
    by_cases hc : c = '"'
    · subst hc
      refine ⟨[] :: segs, by simp, ?_, ?_⟩
      · intro x hx
        rcases List.mem_cons.mp hx with rfl | h2
        · simp
        · exact hq x h2
      · rw [joinSegs_cons [] segs hne]
        simp [hj]
    · obtain ⟨a, segs2, rfl⟩ : ∃ a segs2, segs = a :: segs2 := by
        cases segs with
        | nil => exact absurd rfl hne
        | cons a s2 => exact ⟨a, s2, rfl⟩
      refine ⟨(c :: a) :: segs2, by simp, ?_, ?_⟩
      · intro x hx
        rcases List.mem_cons.mp hx with rfl | h2
        · intro d hd
          rcases List.mem_cons.mp hd with rfl | hd2
          · exact hc
          · exact hq a (by simp) d hd2
        · exact hq x (List.mem_cons_of_mem a h2)
      · cases segs2 with
        | nil =>
          have ha : a = cs := hj
          rw [ha]
          rfl
        | cons b s2 =>
          rw [joinSegs_cons (c :: a) (b :: s2) (by simp)]
          rw [joinSegs_cons a (b :: s2) (by simp)] at hj
          rw [List.cons_append, hj]

/-- Claim C9 amended: the rewrite is idempotent on every HTML content
but never replaces an existing token: applying add_cache_busting_to_html
with any second token to output already rewritten with a nonempty
digit-only timestamp token returns that output unchanged, because every
tokenized reference now ends in the token's digits and matches none of
the three patterns again. -/
theorem C9_token_replacement_amended (s t1 t2 : List Char) (ht1 : t1 ≠ [])
    (ht1d : ∀ c ∈ t1, c.isDigit = true) :
    add_cache_busting_to_html (add_cache_busting_to_html s t1) t2
      = add_cache_busting_to_html s t1 := by
  obtain ⟨segs, hne, hq, rfl⟩ := exists_segs s
  have ht1q : ∀ c ∈ t1, c ≠ '"' := by
    intro c hcmem he
    have hcd := ht1d c hcmem
    rw [he] at hcd
    exact absurd hcd (by decide)
  have hlitH : litHref = stemHref ++ ['"'] := rfl
  have hlitS : litSrc = stemSrc ++ ['"'] := rfl
  have hCssL : ∀ suf ∈ ([sufCss] : List (List Char)),
      ∃ c, suf.getLast? = some c ∧ c.isDigit = false := by
    intro suf hsuf
    rw [List.mem_singleton] at hsuf
    subst hsuf
    exact ⟨'s', by decide, by decide⟩
  have hJsL : ∀ suf ∈ ([sufJs] : List (List Char)),
      ∃ c, suf.getLast? = some c ∧ c.isDigit = false := by
    intro suf hsuf
    rw [List.mem_singleton] at hsuf
    subst hsuf
    exact ⟨'s', by decide, by decide⟩
  have hImgL : ∀ suf ∈ sufsImg, ∃ c, suf.getLast? = some c ∧ c.isDigit = false := by
    intro suf hsuf
    rw [show sufsImg = [['.', 'j', 'p', 'g'], ['.', 'j', 'p', 'e', 'g'],
      ['.', 'p', 'n', 'g'], ['.', 'g', 'i', 'f'], ['.', 'w', 'e', 'b', 'p']] from rfl] at hsuf
    rcases List.mem_cons.mp hsuf with rfl | hsuf
    · exact ⟨'g', by decide, by decide⟩
    rcases List.mem_cons.mp hsuf with rfl | hsuf
    · exact ⟨'g', by decide, by decide⟩
    rcases List.mem_cons.mp hsuf with rfl | hsuf
    · exact ⟨'g', by decide, by decide⟩
    rcases List.mem_cons.mp hsuf with rfl | hsuf
    · exact ⟨'f', by decide, by decide⟩
    rcases List.mem_cons.mp hsuf with rfl | hsuf
    · exact ⟨'p', by decide, by decide⟩
    · exact absurd hsuf (by simp)
  have hq1 : ∀ x ∈ segMap stemHref [sufCss] t1 segs, ∀ c ∈ x, c ≠ '"' :=
    segMap_quote_free stemHref [sufCss] t1 ht1q segs.length segs (Nat.le_refl _) hq
  have hq2 : ∀ x ∈ segMap stemSrc [sufJs] t1 (segMap stemHref [sufCss] t1 segs),
      ∀ c ∈ x, c ≠ '"' :=
    segMap_quote_free stemSrc [sufJs] t1 ht1q
      (segMap stemHref [sufCss] t1 segs).length
      (segMap stemHref [sufCss] t1 segs) (Nat.le_refl _) hq1
  have hq3 : ∀ x ∈ segMap stemSrc sufsImg t1
      (segMap stemSrc [sufJs] t1 (segMap stemHref [sufCss] t1 segs)),
      ∀ c ∈ x, c ≠ '"' :=
    segMap_quote_free stemSrc sufsImg t1 ht1q
      (segMap stemSrc [sufJs] t1 (segMap stemHref [sufCss] t1 segs)).length
      (segMap stemSrc [sufJs] t1 (segMap stemHref [sufCss] t1 segs))
      (Nat.le_refl _) hq2
  have hpass1 : add_cache_busting_to_html (joinSegs segs) t1
      = joinSegs (segMap stemSrc sufsImg t1
          (segMap stemSrc [sufJs] t1 (segMap stemHref [sufCss] t1 segs))) := by
    simp only [add_cache_busting_to_html]
    rw [hlitH, subRef_joinSegs stemHref [sufCss] t1 (by decide) (by decide)
      segs.length segs (Nat.le_refl _) hq]
    rw [hlitS, subRef_joinSegs stemSrc [sufJs] t1 (by decide) (by decide)
      (segMap stemHref [sufCss] t1 segs).length
      (segMap stemHref [sufCss] t1 segs) (Nat.le_refl _) hq1]
    rw [subRef_joinSegs stemSrc sufsImg t1 (by decide) (by decide)
      (segMap stemSrc [sufJs] t1 (segMap stemHref [sufCss] t1 segs)).length
      (segMap stemSrc [sufJs] t1 (segMap stemHref [sufCss] t1 segs))
      (Nat.le_refl _) hq2]
  have hcH1 : segClean stemHref [sufCss] (segMap stemHref [sufCss] t1 segs) :=
    segMap_self_clean stemHref [sufCss] t1 ht1 ht1d (by decide) hCssL
      segs.length segs (Nat.le_refl _)
  have hcH2 : segClean stemHref [sufCss]
      (segMap stemSrc [sufJs] t1 (segMap stemHref [sufCss] t1 segs)) :=
    segMap_preserves_clean stemHref stemSrc [sufCss] [sufJs] t1 ht1 ht1d
      (by decide) hCssL (segMap stemHref [sufCss] t1 segs).length
      (segMap stemHref [sufCss] t1 segs) (Nat.le_refl _) hcH1
  have hcH3 : segClean stemHref [sufCss] (segMap stemSrc sufsImg t1
      (segMap stemSrc [sufJs] t1 (segMap stemHref [sufCss] t1 segs))) :=
    segMap_preserves_clean stemHref stemSrc [sufCss] sufsImg t1 ht1 ht1d
      (by decide) hCssL
      (segMap stemSrc [sufJs] t1 (segMap stemHref [sufCss] t1 segs)).length
      (segMap stemSrc [sufJs] t1 (segMap stemHref [sufCss] t1 segs))
      (Nat.le_refl _) hcH2
  have hcJ2 : segClean stemSrc [sufJs]
      (segMap stemSrc [sufJs] t1 (segMap stemHref [sufCss] t1 segs)) :=
    segMap_self_clean stemSrc [sufJs] t1 ht1 ht1d (by decide) hJsL
      (segMap stemHref [sufCss] t1 segs).length
      (segMap stemHref [sufCss] t1 segs) (Nat.le_refl _)
  have hcJ3 : segClean stemSrc [sufJs] (segMap stemSrc sufsImg t1
      (segMap stemSrc [sufJs] t1 (segMap stemHref [sufCss] t1 segs))) :=
    segMap_preserves_clean stemSrc stemSrc [sufJs] sufsImg t1 ht1 ht1d
      (by decide) hJsL
      (segMap stemSrc [sufJs] t1 (segMap stemHref [sufCss] t1 segs)).length
      (segMap stemSrc [sufJs] t1 (segMap stemHref [sufCss] t1 segs))
      (Nat.le_refl _) hcJ2
  have hcI3 : segClean stemSrc sufsImg (segMap stemSrc sufsImg t1
      (segMap stemSrc [sufJs] t1 (segMap stemHref [sufCss] t1 segs))) :=
    segMap_self_clean stemSrc sufsImg t1 ht1 ht1d (by decide) hImgL
      (segMap stemSrc [sufJs] t1 (segMap stemHref [sufCss] t1 segs)).length
      (segMap stemSrc [sufJs] t1 (segMap stemHref [sufCss] t1 segs))
      (Nat.le_refl _)
  rw [hpass1]
  simp only [add_cache_busting_to_html]
  rw [hlitH, subRef_joinSegs stemHref [sufCss] t2 (by decide) (by decide)
    (segMap stemSrc sufsImg t1
      (segMap stemSrc [sufJs] t1 (segMap stemHref [sufCss] t1 segs))).length
    (segMap stemSrc sufsImg t1
      (segMap stemSrc [sufJs] t1 (segMap stemHref [sufCss] t1 segs)))
    (Nat.le_refl _) hq3]
  rw [segMap_id_of_clean stemHref [sufCss] t2
    (segMap stemSrc sufsImg t1
      (segMap stemSrc [sufJs] t1 (segMap stemHref [sufCss] t1 segs))).length
    (segMap stemSrc sufsImg t1
      (segMap stemSrc [sufJs] t1 (segMap stemHref [sufCss] t1 segs)))
    (Nat.le_refl _) hcH3]
  rw [hlitS, subRef_joinSegs stemSrc [sufJs] t2 (by decide) (by decide)
    (segMap stemSrc sufsImg t1
      (segMap stemSrc [sufJs] t1 (segMap stemHref [sufCss] t1 segs))).length
    (segMap stemSrc sufsImg t1
      (segMap stemSrc [sufJs] t1 (segMap stemHref [sufCss] t1 segs)))
    (Nat.le_refl _) hq3]
  rw [segMap_id_of_clean stemSrc [sufJs] t2
    (segMap stemSrc sufsImg t1
      (segMap stemSrc [sufJs] t1 (segMap stemHref [sufCss] t1 segs))).length
    (segMap stemSrc sufsImg t1
      (segMap stemSrc [sufJs] t1 (segMap stemHref [sufCss] t1 segs)))
    (Nat.le_refl _) hcJ3]
  rw [subRef_joinSegs stemSrc sufsImg t2 (by decide) (by decide)
    (segMap stemSrc sufsImg t1
      (segMap stemSrc [sufJs] t1 (segMap stemHref [sufCss] t1 segs))).length
    (segMap stemSrc sufsImg t1
      (segMap stemSrc [sufJs] t1 (segMap stemHref [sufCss] t1 segs)))
    (Nat.le_refl _) hq3]
  rw [segMap_id_of_clean stemSrc sufsImg t2
    (segMap stemSrc sufsImg t1
      (segMap stemSrc [sufJs] t1 (segMap stemHref [sufCss] t1 segs))).length
    (segMap stemSrc sufsImg t1
      (segMap stemSrc [sufJs] t1 (segMap stemHref [sufCss] t1 segs)))
    (Nat.le_refl _) hcI3]

/-- Claim C9 witness: a document with surrounding markup, a CSS link and
an image link, rewritten with token 20240101 and then again with token
2, is returned unchanged by the second rewrite. -/
theorem C9_token_replacement_amended_witness :
    (("20240101").toList ≠ [] ∧ ∀ c ∈ ("20240101").toList, c.isDigit = true) ∧
    add_cache_busting_to_html
        (add_cache_busting_to_html
          (("<p><a href=\"a.css\"><img src=\"b.png\"></p>").toList)
          (("20240101").toList))
        (("2").toList)
      = add_cache_busting_to_html
          (("<p><a href=\"a.css\"><img src=\"b.png\"></p>").toList)
          (("20240101").toList) :=
  ⟨⟨by decide, by decide⟩,
    C9_token_replacement_amended
      (("<p><a href=\"a.css\"><img src=\"b.png\"></p>").toList)
      (("20240101").toList) (("2").toList) (by decide) (by decide)⟩
